import Mathlib

/-!
Verification of the strapi-frontend repository: a shallow embedding of the
rich-text conversion code (`src/lib/strapi-content.ts`), the blocks renderer
(`components/BlocksRenderer.tsx`), the CMS API client (`src/lib/api.ts`),
the login API route (`src/app/api/auth/login/route.ts`) and the vote-button
state arithmetic (`src/components/VoteButtons.tsx`), together with theorems
settling the specification claims.

JavaScript values flowing through this code are JSON-shaped (they come from
`JSON.parse` of CMS responses or from object literals in the code), so they
are modelled by the inductive type `Json` below.  JavaScript numbers are
modelled by `Int`: every numeric literal appearing in the translated code is
integral, and no float arithmetic occurs in it.  A missing property is
modelled by `Option Json` (`none` plays the role of `undefined`).  A thrown
`TypeError`/`RangeError` is modelled by `Except Unit`.  Functions that
recurse through the loosely-typed block tree are defined by structural
recursion on a fuel argument, wrapped at fuel `sizeOf j`; the fuel is proved
irrelevant (any fuel at least `sizeOf j` gives the same defined result), so
the wrappers are faithful models of the unbounded JS recursion.
-/

/-- Model of a JSON-shaped JavaScript value (no `undefined`: absence of a
property is modelled by `Option` at use sites). -/
inductive Json where
  | null : Json
  | bool (b : Bool) : Json
  | num (n : Int) : Json
  | str (s : String) : Json
  | arr (xs : List Json) : Json
  | obj (fields : List (String × Json)) : Json

mutual
/-- Size measure for `Json` values (the derived `sizeOf` has no executable
code, and fuel arguments below are instantiated with this measure). -/
def Json.size : Json → Nat
  | .null => 1
  | .bool _ => 1
  | .num _ => 1
  | .str _ => 1
  | .arr xs => 1 + Json.sizeList xs
  | .obj fs => 1 + Json.sizeFields fs
/-- Size of a list of `Json` values. -/
def Json.sizeList : List Json → Nat
  | [] => 0
  | x :: xs => 1 + Json.size x + Json.sizeList xs
/-- Size of an object's field list. -/
def Json.sizeFields : List (String × Json) → Nat
  | [] => 0
  | kv :: rest => 1 + Json.size kv.2 + Json.sizeFields rest
end

/-- Truthiness of a JavaScript value (`if (x)`).  `null`, `false`, `0` and
the empty string are falsy; arrays and objects are always truthy. -/
def Json.truthy : Json → Bool
  | .null => false
  | .bool b => b
  | .num n => n != 0
  | .str s => s != ""
  | .arr _ => true
  | .obj _ => true

/-- Test for `typeof x === "object"`.  In JavaScript `typeof null` is
`"object"`, and arrays are objects. -/
def Json.typeofObject : Json → Bool
  | .null => true
  | .arr _ => true
  | .obj _ => true
  | _ => false

/-- Test for `Array.isArray(x)`. -/
def Json.isArray : Json → Bool
  | .arr _ => true
  | _ => false

/-- First-match lookup in an object's field list. -/
def lookupField : List (String × Json) → String → Option Json
  | [], _ => none
  | (k, v) :: rest, key => if k = key then some v else lookupField rest key

/-- Property access `x.key` on a non-null value: objects yield the field
(or `undefined` = `none` when absent); every other value has no own string
keys, so access yields `undefined`.  Access on `null` is NOT modelled here
(it throws in JavaScript); see `Json.getE`. -/
def Json.get : Json → String → Option Json
  | .obj fields, key => lookupField fields key
  | _, _ => none

/-- Property access that models the JavaScript `TypeError` thrown when the
receiver is `null` (`null.key` throws; our value universe has no
`undefined` receivers). -/
def Json.getE : Json → String → Except Unit (Option Json)
  | .null, _ => .error ()
  | j, key => .ok (j.get key)

/-- Optional-chaining access `x?.key`: `null` receiver yields `undefined`
instead of throwing. -/
def Json.getOpt : Json → String → Option Json
  | .null, _ => none
  | j, key => j.get key

/-- Truthiness of a possibly-undefined value (`undefined` is falsy). -/
def truthyOpt : Option Json → Bool
  | none => false
  | some v => v.truthy

/-- JavaScript `a || b` for a possibly-undefined `a`. -/
def jsOr (a : Option Json) (b : Json) : Json :=
  match a with
  | some v => if v.truthy then v else b
  | none => b

/-- JavaScript nullish coalescing `a ?? b` on possibly-undefined values. -/
def jsCoalesce (a b : Option Json) : Option Json :=
  match a with
  | none => b
  | some .null => b
  | some v => some v

/-- Characters treated as whitespace by `String.prototype.trim` (the ASCII
ones; the blog content manipulated here is ASCII-whitespace separated). -/
def isJsWS (c : Char) : Bool :=
  c = ' ' || c = '\t' || c = '\n' || c = '\r' || c = '\x0b' || c = '\x0c'

/-- Character-list version of `String.prototype.trim`. -/
def trimChars (l : List Char) : List Char :=
  ((l.dropWhile isJsWS).reverse.dropWhile isJsWS).reverse

/-- Model of `s.trim()`. -/
def jsTrim (s : String) : String := ⟨trimChars s.data⟩

/-- Character-list version of `s.replace(/\n/g, " ")`. -/
def replaceNlChars (l : List Char) : List Char :=
  l.map fun c => if c = '\n' then ' ' else c

/-- Model of `s.replace(/\n/g, " ")`. -/
def replaceNl (s : String) : String := ⟨replaceNlChars s.data⟩

/-- Splitter state machine for `s.split(/\n\n+/)`: `cur` is the current
segment (reversed), `pend` counts newline characters read but not yet
classified (a maximal run of at least two newlines is a separator; a lone
newline is ordinary content). -/
def sbAux : List Char → Nat → List Char → List (List Char)
  | cur, pend, [] =>
      if 2 ≤ pend then [cur.reverse, []]
      else [(List.replicate pend '\n' ++ cur).reverse]
  | cur, pend, c :: rest =>
      if c = '\n' then sbAux cur (pend + 1) rest
      else if 2 ≤ pend then cur.reverse :: sbAux [c] 0 rest
      else sbAux (c :: List.replicate pend '\n' ++ cur) 0 rest

/-- Character-list version of `s.split(/\n\n+/)`. -/
def splitBlanksL (l : List Char) : List (List Char) := sbAux [] 0 l

/-- Model of `s.split(/\n\n+/)` (split on maximal runs of two or more
newlines, as the greedy regex does). -/
def splitBlanks (s : String) : List String :=
  (splitBlanksL s.data).map fun l => ⟨l⟩

/-- Model of `parts.join(sep)` for a list of strings (also
`String.intercalate`). -/
def joinSep (sep : String) : List String → String
  | [] => ""
  | [x] => x
  | x :: rest => x ++ sep ++ joinSep sep rest

/-- Digit-run parser used by the model of JavaScript `ToNumber` on strings:
`some` of the value when every character is a decimal digit (non-empty),
otherwise `none`. -/
def digitsToNat : List Char → Option Nat
  | [] => none
  | [c] => if c.isDigit then some (c.toNat - 48) else none
  | c :: rest =>
      match digitsToNat rest, c.isDigit with
      | some n, true => some ((c.toNat - 48) * 10 ^ rest.length + n)
      | _, _ => none

/-- Model of JavaScript `ToNumber` on a string (`none` is `NaN`): the
string is trimmed; empty means `0`; an optional sign followed by decimal
digits is an integer; anything else (floats included, which do not occur in
the code paths modelled) is `NaN`. -/
def strToNumber (s : String) : Option Int :=
  match (jsTrim s).data with
  | [] => some 0
  | '-' :: rest => (digitsToNat rest).map fun n => -(n : Int)
  | '+' :: rest => (digitsToNat rest).map fun n => (n : Int)
  | l => (digitsToNat l).map fun n => (n : Int)

/-- Fuelled model of JavaScript `String(x)` (used by template literals and
`Array.prototype.join`): numbers print in decimal, `null` prints "null",
booleans print their name, arrays join their elements with commas
(`null` elements print empty), objects print "[object Object]". -/
def stGo : Nat → Json → String
  | 0, _ => ""
  | _ + 1, .null => "null"
  | _ + 1, .bool b => if b then "true" else "false"
  | _ + 1, .num n => toString n
  | _ + 1, .str s => s
  | fuel + 1, .arr xs => joinSep "," (xs.map fun x =>
      match x with
      | .null => ""
      | v => stGo fuel v)
  | _ + 1, .obj _ => "[object Object]"

/-- Model of JavaScript `String(x)`. -/
def jsToString (j : Json) : String := stGo (Json.size j) j

/-- Model of JavaScript `ToNumber` (`none` is `NaN`): numbers are
themselves, booleans are 0/1, `null` is 0, strings parse via
`strToNumber`, arrays convert through their string form, objects are
`NaN`. -/
def jsToNumber : Json → Option Int
  | .num n => some n
  | .bool b => some (if b then 1 else 0)
  | .null => some 0
  | .str s => strToNumber s
  | .arr xs => strToNumber (jsToString (.arr xs))
  | .obj _ => none

/-- Element conversion used by `Array.prototype.join`: `null` (and
`undefined`, absent from the universe) become the empty string, everything
else converts by `String(x)`. -/
def joinElem : Json → String
  | .null => ""
  | v => jsToString v

/-- Model of `values.join(sep)` on an array of arbitrary values. -/
def jsArrJoin (sep : String) (vs : List Json) : String :=
  joinSep sep (vs.map joinElem)

/-- Escape of one character inside a JSON string literal, as
`JSON.stringify` produces it. -/
def jsonEscapeChar (c : Char) : String :=
  if c = '"' then "\\\""
  else if c = '\\' then "\\\\"
  else if c = '\n' then "\\n"
  else if c = '\r' then "\\r"
  else if c = '\t' then "\\t"
  else if c = '\x08' then "\\b"
  else if c = '\x0c' then "\\f"
  else if c.toNat < 32 then
    "\\u00" ++ String.mk [Nat.digitChar (c.toNat / 16), Nat.digitChar (c.toNat % 16)]
  else String.mk [c]

/-- Escaped, quoted JSON string literal. -/
def jsonQuote (s : String) : String :=
  "\"" ++ String.join (s.data.map jsonEscapeChar) ++ "\""

/-- Fuelled model of `JSON.stringify` on our value universe (which contains
no `undefined` and no functions, so stringification always yields a
string). -/
def sfGo : Nat → Json → String
  | 0, _ => ""
  | _ + 1, .null => "null"
  | _ + 1, .bool b => if b then "true" else "false"
  | _ + 1, .num n => toString n
  | _ + 1, .str s => jsonQuote s
  | fuel + 1, .arr xs => "[" ++ joinSep "," (xs.map (sfGo fuel)) ++ "]"
  | fuel + 1, .obj fields =>
      "\x7b" ++ joinSep ","
        (fields.map fun kv => jsonQuote kv.1 ++ ":" ++ sfGo fuel kv.2) ++ "\x7d"

/-- Model of `JSON.stringify(x)`. -/
def jsonStringify (j : Json) : String := sfGo (Json.size j) j

theorem Json.size_pos : ∀ j : Json, 0 < Json.size j := by
  intro j
  cases j <;> simp [Json.size]

theorem size_lt_of_mem_sizeList {x : Json} {xs : List Json} (h : x ∈ xs) :
    Json.size x < Json.sizeList xs := by
  induction xs with
  | nil => cases h
  | cons y ys ih =>
      rcases List.mem_cons.mp h with rfl | h
      · simp [Json.sizeList]; omega
      · have := ih h
        simp [Json.sizeList]; omega

theorem size_lt_of_mem_arr {x : Json} {xs : List Json} (h : x ∈ xs) :
    Json.size x < Json.size (.arr xs) := by
  have := size_lt_of_mem_sizeList h
  simp [Json.size]; omega

theorem size_lt_of_lookup {fs : List (String × Json)} {k : String} {v : Json}
    (h : lookupField fs k = some v) : Json.size v < Json.sizeFields fs := by
  induction fs with
  | nil => simp [lookupField] at h
  | cons kv rest ih =>
      cases kv with
      | mk k1 v1 =>
        by_cases hk : k1 = k
        · simp only [lookupField, if_pos hk, Option.some.injEq] at h
          subst h
          simp [Json.sizeFields]; omega
        · simp only [lookupField, if_neg hk] at h
          have := ih h
          simp [Json.sizeFields]; omega

theorem size_lt_of_get {j : Json} {k : String} {v : Json}
    (h : j.get k = some v) : Json.size v < Json.size j := by
  cases j <;> simp [Json.get] at h
  case obj fs =>
    have := size_lt_of_lookup h
    simp [Json.size]; omega

theorem size_lt_of_getE {j : Json} {k : String} {v : Json}
    (h : j.getE k = .ok (some v)) : Json.size v < Json.size j := by
  cases j <;> simp [Json.getE, Json.get] at h
  case obj fs =>
    exact @size_lt_of_get (.obj fs) _ _ (by simpa [Json.get] using h)

/-!
Model of `convertBlockToMarkdown` (src/lib/strapi-content.ts, lines 51-198).
The result type `Option (Except Unit Json)` reads: `none` = recursion fuel
exhausted (ruled out at fuel `Json.size`, see `goB_spec`); `some (.error ())`
= the JavaScript code throws (`.map` on a truthy non-array, `.trim` on a
non-string, property access on `null`, `"#".repeat` of a negative number);
`some (.ok v)` = the JavaScript function returns `v` (a string in all
branches except the raw `text` fall-throughs, which return the `text`
property unchanged).
-/

/-- Model of `children.map(f)` (throws nothing itself; propagates the
callback's outcome left to right). -/
def mapGo (f : Json → Option (Except Unit Json)) :
    List Json → Option (Except Unit (List Json))
  | [] => some (.ok [])
  | x :: xs =>
      match f x with
      | none => none
      | some (.error e) => some (.error e)
      | some (.ok r) =>
          match mapGo f xs with
          | none => none
          | some (.error e) => some (.error e)
          | some (.ok rs) => some (.ok (r :: rs))

/-- Model of the unguarded pattern `c ? c.map(f).join("") : ""` (used by the
code, code-inline, link, bold and italic branches, and by list items): a
truthy non-array `c` makes `.map` throw a `TypeError`. -/
def childrenConv (f : Json → Option (Except Unit Json)) :
    Option Json → Option (Except Unit String)
  | none => some (.ok "")
  | some c =>
      if c.truthy then
        match c with
        | .arr xs =>
            match mapGo f xs with
            | none => none
            | some (.error e) => some (.error e)
            | some (.ok rs) => some (.ok (jsArrJoin "" rs))
        | _ => some (.error ())
      else some (.ok "")

/-- Model of the guarded pattern
`children && Array.isArray(children) ? children.map(f).join(sep) : ""`. -/
def guardedConv (f : Json → Option (Except Unit Json)) (sep : String) :
    Option Json → Option (Except Unit String)
  | some (.arr xs) =>
      match mapGo f xs with
      | none => none
      | some (.error e) => some (.error e)
      | some (.ok rs) => some (.ok (jsArrJoin sep rs))
  | _ => some (.ok "")

/-- Model of the paragraph branch's
`.filter(text => text.trim().length > 0)`: the callback calls `.trim()` on
each mapped result, so a non-string result makes it throw. -/
def filterTrimNonempty : List Json → Except Unit (List Json)
  | [] => .ok []
  | .str s :: rest =>
      match filterTrimNonempty rest with
      | .error e => .error e
      | .ok rs => .ok (if 0 < (jsTrim s).length then .str s :: rs else rs)
  | _ :: _ => .error ()

/-- Model of the paragraph branch: map, filter out blank strings, join
without separator (the final `paragraphText || ""` is the identity on the
joined string). -/
def paraConv (f : Json → Option (Except Unit Json)) :
    Option Json → Option (Except Unit String)
  | some (.arr xs) =>
      match mapGo f xs with
      | none => none
      | some (.error e) => some (.error e)
      | some (.ok rs) =>
          match filterTrimNonempty rs with
          | .error e => some (.error e)
          | .ok kept => some (.ok (jsArrJoin "" kept))
  | _ => some (.ok "")

/-- Model of `"#".repeat(Math.min(level, 6))` for a truthy `level`:
`Math.min` coerces `level` to a number; `repeat` of `NaN` yields the empty
string, `repeat` of a negative count throws a `RangeError`. -/
def headingHashes (level : Json) : Except Unit String :=
  match jsToNumber level with
  | none => .ok ""
  | some n =>
      if n < 0 then .error ()
      else .ok (String.mk (List.replicate (min n 6).toNat '#'))

/-- Model of one list item: `item.children` throws on a `null` item, then
`item.children ? item.children.map(f).join("") : ""`. -/
def listItemText (f : Json → Option (Except Unit Json)) (item : Json) :
    Option (Except Unit String) :=
  match item.getE "children" with
  | .error _ => some (.error ())
  | .ok ic => childrenConv f ic

/-- Model of the list branch's indexed map over items, producing the
prefixed item lines. -/
def listItemsGo (f : Json → Option (Except Unit Json)) (orderedVal : Option Json) :
    List Json → Nat → Option (Except Unit (List String))
  | [], _ => some (.ok [])
  | item :: rest, idx =>
      match listItemText f item with
      | none => none
      | some (.error e) => some (.error e)
      | some (.ok itemText) =>
          match listItemsGo f orderedVal rest (idx + 1) with
          | none => none
          | some (.error e) => some (.error e)
          | some (.ok lines) =>
              some (.ok (((if truthyOpt orderedVal then toString (idx + 1) ++ "." else "-")
                ++ " " ++ itemText) :: lines))

/-- Model of the list branch: guarded by `Array.isArray`, items joined with
newlines. -/
def listConv (f : Json → Option (Except Unit Json)) (orderedVal : Option Json) :
    Option Json → Option (Except Unit String)
  | some (.arr xs) =>
      match listItemsGo f orderedVal xs 0 with
      | none => none
      | some (.error e) => some (.error e)
      | some (.ok lines) => some (.ok (joinSep "\n" lines))
  | _ => some (.ok "")

/-- Split on single newline characters, as `text.split("\n")` does. -/
def splitNlChars : List Char → List (List Char)
  | [] => [[]]
  | c :: rest =>
      if c = '\n' then [] :: splitNlChars rest
      else
        match splitNlChars rest with
        | l :: ls => (c :: l) :: ls
        | [] => [[c]]

/-- Model of `text.split("\n")`. -/
def splitNl (s : String) : List String := (splitNlChars s.data).map fun l => ⟨l⟩

/-- Model of the blockquote branch's line prefixing:
`text.split("\n").map(line => "> " + line).join("\n")`. -/
def quoteLines (text : String) : String :=
  joinSep "\n" ((splitNl text).map fun line => "> " ++ line)

/-- Model of `if (text) return text; return ""`: the raw `text` property
when truthy, else the empty string. -/
def textFallback (text : Option Json) : Option (Except Unit Json) :=
  match text with
  | some v => if v.truthy then some (.ok v) else some (.ok (.str ""))
  | none => some (.ok (.str ""))

/-- Model of the default fall-through tail of `convertBlockToMarkdown`:
children concatenation when `children` is an array, else `textFallback`. -/
def defaultConv (f : Json → Option (Except Unit Json)) (children text : Option Json) :
    Option (Except Unit Json) :=
  match children with
  | some (.arr xs) =>
      match mapGo f xs with
      | none => none
      | some (.error e) => some (.error e)
      | some (.ok rs) => some (.ok (.str (jsArrJoin "" rs)))
  | _ => textFallback text

/-- Lift a string-valued branch result into the converter's result type. -/
def strRes (r : Option (Except Unit String)) : Option (Except Unit Json) :=
  r.map (·.map Json.str)

/-- Discrimination of the `type` strings recognized by
`convertBlockToMarkdown`; everything else falls to the default branch. -/
inductive BlockKind where
  | text | paragraph | heading | list | listItem | code | codeInline
  | link | bold | italic | blockquote | hr | image | other

/-- Classification of a `type` string by the chain of string comparisons in
src/lib/strapi-content.ts (the comparisons are mutually exclusive, so this
factoring preserves the branch order). -/
def classifyType (t : String) : BlockKind :=
  if t = "text" then .text
  else if t = "paragraph" then .paragraph
  else if t = "heading" then .heading
  else if t = "list" then .list
  else if t = "list-item" then .listItem
  else if t = "code" then .code
  else if t = "code-inline" then .codeInline
  else if t = "link" then .link
  else if t = "bold" || t = "strong" then .bold
  else if t = "italic" || t = "emphasis" then .italic
  else if t = "blockquote" then .blockquote
  else if t = "hr" || t = "horizontal-rule" then .hr
  else if t = "image" then .image
  else .other

/-- Branch chain of `convertBlockToMarkdown` for a block whose `type`
property is the string `t`: a line-by-line translation of
src/lib/strapi-content.ts lines 62-197, with recursive calls abstracted as
`f`.  A `heading` with a falsy `level` matches no branch in the source (the
test is `type === "heading" && level`) and falls through to the default.
The heading and blockquote branches return the plain empty string when
`children` is not an array (their decoration sits inside the
`Array.isArray` guard, lines 90-94 and 165-172; `"#".repeat` still runs
first in the heading branch), whereas the code, code-inline, link, bold
and italic branches decorate the empty fall-through string (their
decoration sits after the unguarded `children ? ... : ""`). -/
def typedStep (f : Json → Option (Except Unit Json)) (block : Json) (t : String) :
    Option (Except Unit Json) :=
  match classifyType t with
  | .text => some (.ok (jsOr (block.get "text") (.str "")))
  | .paragraph => strRes (paraConv f (block.get "children"))
  | .heading =>
      if truthyOpt (block.get "level") then
        match headingHashes ((block.get "level").getD .null) with
        | .error e => some (.error e)
        | .ok hashes =>
            match block.get "children" with
            | some (.arr _) =>
                strRes ((guardedConv f "" (block.get "children")).map
                  (·.map fun text => hashes ++ " " ++ text))
            | _ => some (.ok (.str ""))
      else defaultConv f (block.get "children") (block.get "text")
  | .list => strRes (listConv f (block.get "ordered") (block.get "children"))
  | .listItem => strRes (guardedConv f "" (block.get "children"))
  | .code =>
      strRes ((childrenConv f (block.get "children")).map
        (·.map fun codeText =>
          "```" ++ jsToString (jsOr (block.get "language") (.str ""))
            ++ "\n" ++ codeText ++ "\n```"))
  | .codeInline =>
      strRes ((childrenConv f (block.get "children")).map
        (·.map fun codeText => "`" ++ codeText ++ "`"))
  | .link =>
      strRes ((childrenConv f (block.get "children")).map
        (·.map fun linkText =>
          "[" ++ linkText ++ "](" ++ jsToString (jsOr (block.get "url") (.str "#")) ++ ")"))
  | .bold =>
      strRes ((childrenConv f (block.get "children")).map
        (·.map fun text => "**" ++ text ++ "**"))
  | .italic =>
      strRes ((childrenConv f (block.get "children")).map
        (·.map fun text => "*" ++ text ++ "*"))
  | .blockquote =>
      match block.get "children" with
      | some (.arr _) =>
          strRes ((guardedConv f "\n" (block.get "children")).map (·.map quoteLines))
      | _ => some (.ok (.str ""))
  | .hr => some (.ok (.str "---"))
  | .image =>
      some (.ok (.str ("![" ++ jsToString (jsOr (block.get "alt") (.str "")) ++ "]("
        ++ jsToString (jsOr (block.get "url") (jsOr (block.get "src") (.str ""))) ++ ")")))
  | .other => defaultConv f (block.get "children") (block.get "text")

/-- One unfolding of `convertBlockToMarkdown` with recursive calls
abstracted as `f`: the `!block || typeof block !== "object"` guard, then
the branch chain on the `type` property (a non-string `type` value matches
no branch and falls through to the default). -/
def blockStep (f : Json → Option (Except Unit Json)) (block : Json) :
    Option (Except Unit Json) :=
  if !(block.truthy && block.typeofObject) then some (.ok (.str ""))
  else
    match block.get "type" with
    | some (.str t) => typedStep f block t
    | _ => defaultConv f (block.get "children") (block.get "text")

/-- Fuelled recursive model of `convertBlockToMarkdown`. -/
def goB : Nat → Json → Option (Except Unit Json)
  | 0, _ => none
  | fuel + 1, block => blockStep (goB fuel) block

/-- Model of `convertBlockToMarkdown` (src/lib/strapi-content.ts): the fuel
`Json.size j` is always sufficient (`goB_spec` below), so the `getD`
default is never taken. -/
def convertBlockToMarkdown (j : Json) : Except Unit Json :=
  (goB (Json.size j) j).getD (.error ())

theorem mapGo_congr {f g : Json → Option (Except Unit Json)} {xs : List Json}
    (h : ∀ x ∈ xs, f x = g x) : mapGo f xs = mapGo g xs := by
  induction xs with
  | nil => rfl
  | cons x xs ih =>
      simp only [mapGo, h x (List.mem_cons_self x xs),
        ih fun y hy => h y (List.mem_cons_of_mem x hy)]

theorem mapGo_some {f : Json → Option (Except Unit Json)} {xs : List Json}
    (h : ∀ x ∈ xs, (f x).isSome) : (mapGo f xs).isSome := by
  induction xs with
  | nil => simp [mapGo]
  | cons x xs ih =>
      have hx := h x (List.mem_cons_self x xs)
      have hxs := ih fun y hy => h y (List.mem_cons_of_mem x hy)
      simp only [mapGo]
      rcases Option.isSome_iff_exists.mp hx with ⟨r, hr⟩
      rcases Option.isSome_iff_exists.mp hxs with ⟨rs, hrs⟩
      rw [hr, hrs]
      cases r <;> cases rs <;> simp

theorem childrenConv_congr {f g : Json → Option (Except Unit Json)} {co : Option Json}
    (h : ∀ xs, co = some (.arr xs) → ∀ x ∈ xs, f x = g x) :
    childrenConv f co = childrenConv g co := by
  match co with
  | none => rfl
  | some c =>
      cases c <;> simp only [childrenConv]
      case arr xs => rw [mapGo_congr (h xs rfl)]

theorem childrenConv_some {f : Json → Option (Except Unit Json)} {co : Option Json}
    (h : ∀ xs, co = some (.arr xs) → ∀ x ∈ xs, (f x).isSome) :
    (childrenConv f co).isSome := by
  match co with
  | none => simp [childrenConv]
  | some c =>
      cases c <;> simp only [childrenConv]
      case arr xs =>
        have := mapGo_some (h xs rfl)
        rcases Option.isSome_iff_exists.mp this with ⟨r, hr⟩
        rw [hr]; cases r <;> split <;> simp
      all_goals split <;> simp

theorem guardedConv_congr {f g : Json → Option (Except Unit Json)} {sep : String}
    {co : Option Json}
    (h : ∀ xs, co = some (.arr xs) → ∀ x ∈ xs, f x = g x) :
    guardedConv f sep co = guardedConv g sep co := by
  match co with
  | none => rfl
  | some c =>
      cases c <;> simp only [guardedConv]
      case arr xs => rw [mapGo_congr (h xs rfl)]

theorem guardedConv_some {f : Json → Option (Except Unit Json)} {sep : String}
    {co : Option Json}
    (h : ∀ xs, co = some (.arr xs) → ∀ x ∈ xs, (f x).isSome) :
    (guardedConv f sep co).isSome := by
  match co with
  | none => simp [guardedConv]
  | some c =>
      cases c <;> simp only [guardedConv] <;> try simp
      case arr xs =>
        rcases Option.isSome_iff_exists.mp (mapGo_some (h xs rfl)) with ⟨r, hr⟩
        rw [hr]; cases r <;> simp

theorem paraConv_congr {f g : Json → Option (Except Unit Json)} {co : Option Json}
    (h : ∀ xs, co = some (.arr xs) → ∀ x ∈ xs, f x = g x) :
    paraConv f co = paraConv g co := by
  match co with
  | none => rfl
  | some c =>
      cases c <;> simp only [paraConv]
      case arr xs => rw [mapGo_congr (h xs rfl)]

theorem paraConv_some {f : Json → Option (Except Unit Json)} {co : Option Json}
    (h : ∀ xs, co = some (.arr xs) → ∀ x ∈ xs, (f x).isSome) :
    (paraConv f co).isSome := by
  match co with
  | none => simp [paraConv]
  | some c =>
      cases c <;> simp only [paraConv] <;> try simp
      case arr xs =>
        rcases Option.isSome_iff_exists.mp (mapGo_some (h xs rfl)) with ⟨r, hr⟩
        rw [hr]
        cases r with
        | error e => simp
        | ok rs => cases hft : filterTrimNonempty rs <;> simp [hft]

theorem listItemText_congr {f g : Json → Option (Except Unit Json)} {item : Json}
    (h : ∀ ic ys, item.getE "children" = .ok ic → ic = some (.arr ys) →
      ∀ y ∈ ys, f y = g y) :
    listItemText f item = listItemText g item := by
  have hcc : ∀ ic, item.getE "children" = .ok ic →
      childrenConv f ic = childrenConv g ic :=
    fun ic hic => childrenConv_congr fun ys hys => h ic ys hic hys
  unfold listItemText
  cases hic : item.getE "children" with
  | error e => rfl
  | ok ic => exact hcc ic hic

theorem listItemText_some {f : Json → Option (Except Unit Json)} {item : Json}
    (h : ∀ ic ys, item.getE "children" = .ok ic → ic = some (.arr ys) →
      ∀ y ∈ ys, (f y).isSome) :
    (listItemText f item).isSome := by
  unfold listItemText
  cases hic : item.getE "children" with
  | error e => simp
  | ok ic => exact childrenConv_some fun ys hys => h ic ys hic hys

theorem listItemsGo_congr {f g : Json → Option (Except Unit Json)} {o : Option Json}
    {xs : List Json} {idx : Nat}
    (h : ∀ item ∈ xs, listItemText f item = listItemText g item) :
    listItemsGo f o xs idx = listItemsGo g o xs idx := by
  induction xs generalizing idx with
  | nil => rfl
  | cons item rest ih =>
      simp only [listItemsGo, h item (List.mem_cons_self item rest),
        ih (fun y hy => h y (List.mem_cons_of_mem item hy))]

theorem listItemsGo_some {f : Json → Option (Except Unit Json)} {o : Option Json}
    {xs : List Json} {idx : Nat}
    (h : ∀ item ∈ xs, (listItemText f item).isSome) :
    (listItemsGo f o xs idx).isSome := by
  induction xs generalizing idx with
  | nil => simp [listItemsGo]
  | cons item rest ih =>
      simp only [listItemsGo]
      rcases Option.isSome_iff_exists.mp (h item (List.mem_cons_self item rest)) with ⟨r, hr⟩
      rcases Option.isSome_iff_exists.mp
        (@ih (idx + 1) fun y hy => h y (List.mem_cons_of_mem item hy)) with ⟨rs, hrs⟩
      rw [hr, hrs]
      cases r <;> cases rs <;> simp

theorem listConv_congr {f g : Json → Option (Except Unit Json)} {o : Option Json}
    {co : Option Json}
    (h : ∀ xs, co = some (.arr xs) → ∀ item ∈ xs,
      listItemText f item = listItemText g item) :
    listConv f o co = listConv g o co := by
  match co with
  | none => rfl
  | some c =>
      cases c <;> simp only [listConv]
      case arr xs => rw [listItemsGo_congr (h xs rfl)]

theorem listConv_some {f : Json → Option (Except Unit Json)} {o : Option Json}
    {co : Option Json}
    (h : ∀ xs, co = some (.arr xs) → ∀ item ∈ xs, (listItemText f item).isSome) :
    (listConv f o co).isSome := by
  match co with
  | none => simp [listConv]
  | some c =>
      cases c <;> simp only [listConv] <;> try simp
      case arr xs =>
        rcases Option.isSome_iff_exists.mp (listItemsGo_some (h xs rfl)) with ⟨r, hr⟩
        rw [hr]; cases r <;> simp

theorem textFallback_some {tx : Option Json} : (textFallback tx).isSome := by
  cases tx with
  | none => simp [textFallback]
  | some v => simp only [textFallback]; split <;> simp

theorem defaultConv_congr {f g : Json → Option (Except Unit Json)}
    {co tx : Option Json}
    (h : ∀ xs, co = some (.arr xs) → ∀ x ∈ xs, f x = g x) :
    defaultConv f co tx = defaultConv g co tx := by
  match co with
  | none => rfl
  | some c =>
      cases c <;> simp only [defaultConv]
      case arr xs => rw [mapGo_congr (h xs rfl)]

theorem defaultConv_some {f : Json → Option (Except Unit Json)} {co tx : Option Json}
    (h : ∀ xs, co = some (.arr xs) → ∀ x ∈ xs, (f x).isSome) :
    (defaultConv f co tx).isSome := by
  match co with
  | none => exact textFallback_some
  | some c =>
      cases c with
      | arr xs =>
          simp only [defaultConv]
          rcases Option.isSome_iff_exists.mp (mapGo_some (h xs rfl)) with ⟨r, hr⟩
          rw [hr]; cases r <;> simp
      | null => exact textFallback_some
      | bool b => exact textFallback_some
      | num n => exact textFallback_some
      | str s => exact textFallback_some
      | obj fs => exact textFallback_some

theorem isSome_optMap {α β : Type} (f : α → β) (o : Option α) :
    (o.map f).isSome = o.isSome := by
  cases o <;> rfl

theorem blockStep_congr {f g : Json → Option (Except Unit Json)} {block : Json}
    (h : ∀ c, Json.size c < Json.size block → f c = g c) :
    blockStep f block = blockStep g block := by
  have hmem : ∀ xs, block.get "children" = some (.arr xs) → ∀ x ∈ xs, f x = g x := by
    intro xs hk x hx
    exact h x (lt_trans (size_lt_of_mem_arr hx) (size_lt_of_get hk))
  have hitem : ∀ xs, block.get "children" = some (.arr xs) → ∀ item ∈ xs,
      listItemText f item = listItemText g item := by
    intro xs hk item hit
    apply listItemText_congr
    intro ic ys hic hys y hy
    subst hys
    have h1 : Json.size y < Json.size (Json.arr ys) := size_lt_of_mem_arr hy
    have h2 : Json.size (Json.arr ys) < Json.size item := size_lt_of_getE hic
    have h3 : Json.size item < Json.size (Json.arr xs) := size_lt_of_mem_arr hit
    have h4 : Json.size (Json.arr xs) < Json.size block := size_lt_of_get hk
    exact h y (by omega)
  have e1 : paraConv f (block.get "children") = paraConv g (block.get "children") :=
    paraConv_congr hmem
  have e2 : ∀ sep, guardedConv f sep (block.get "children")
      = guardedConv g sep (block.get "children") := fun _ => guardedConv_congr hmem
  have e3 : childrenConv f (block.get "children")
      = childrenConv g (block.get "children") := childrenConv_congr hmem
  have e4 : listConv f (block.get "ordered") (block.get "children")
      = listConv g (block.get "ordered") (block.get "children") := listConv_congr hitem
  have e5 : defaultConv f (block.get "children") (block.get "text")
      = defaultConv g (block.get "children") (block.get "text") := defaultConv_congr hmem
  have et : ∀ t, typedStep f block t = typedStep g block t := by
    intro t
    unfold typedStep
    cases classifyType t <;> dsimp only <;>
      first
        | rfl
        | simp only [e1, e2, e3, e4, e5]
  unfold blockStep
  split
  · rfl
  · split
    · rw [et]
    · rw [e5]

theorem blockStep_some {f : Json → Option (Except Unit Json)} {block : Json}
    (h : ∀ c, Json.size c < Json.size block → (f c).isSome) :
    (blockStep f block).isSome := by
  have hmem : ∀ xs, block.get "children" = some (.arr xs) → ∀ x ∈ xs, (f x).isSome := by
    intro xs hk x hx
    exact h x (lt_trans (size_lt_of_mem_arr hx) (size_lt_of_get hk))
  have hitem : ∀ xs, block.get "children" = some (.arr xs) → ∀ item ∈ xs,
      (listItemText f item).isSome := by
    intro xs hk item hit
    apply listItemText_some
    intro ic ys hic hys y hy
    subst hys
    have h1 : Json.size y < Json.size (Json.arr ys) := size_lt_of_mem_arr hy
    have h2 : Json.size (Json.arr ys) < Json.size item := size_lt_of_getE hic
    have h3 : Json.size item < Json.size (Json.arr xs) := size_lt_of_mem_arr hit
    have h4 : Json.size (Json.arr xs) < Json.size block := size_lt_of_get hk
    exact h y (by omega)
  have s1 : (paraConv f (block.get "children")).isSome = true := paraConv_some hmem
  have s2 : ∀ sep, (guardedConv f sep (block.get "children")).isSome = true :=
    fun _ => guardedConv_some hmem
  have s3 : (childrenConv f (block.get "children")).isSome = true :=
    childrenConv_some hmem
  have s4 : (listConv f (block.get "ordered") (block.get "children")).isSome = true :=
    listConv_some hitem
  have s5 : (defaultConv f (block.get "children") (block.get "text")).isSome = true :=
    defaultConv_some hmem
  have st : ∀ t, (typedStep f block t).isSome = true := by
    intro t
    unfold typedStep
    cases classifyType t <;> dsimp only
    case heading =>
      split
      · split
        · simp only [Option.isSome_some]
        · split <;> simp only [strRes, isSome_optMap, Option.isSome_some, s2 ""]
      · exact s5
    case blockquote =>
      split <;> simp only [strRes, isSome_optMap, Option.isSome_some, s2 "\n"]
    all_goals
      first
        | simp only [strRes, isSome_optMap, Option.isSome_some, s1, s3, s4,
            s2 "", s2 "\n"]
        | exact s5
  unfold blockStep
  split
  · simp
  · split
    · exact st _
    · exact s5

theorem goB_spec : ∀ (fuel : Nat) (j : Json), Json.size j ≤ fuel →
    goB fuel j = goB (Json.size j) j ∧ (goB fuel j).isSome := by
  intro fuel
  induction fuel using Nat.strong_induction_on with
  | _ fuel ih =>
      intro j hle
      have hpos := Json.size_pos j
      cases fuel with
      | zero => omega
      | succ fm =>
          obtain ⟨m, hm⟩ : ∃ m, Json.size j = m + 1 := ⟨Json.size j - 1, by omega⟩
          have hcong : ∀ c, Json.size c < Json.size j → goB fm c = goB m c := by
            intro c hc
            have e1 := (ih fm (Nat.lt_succ_self fm) c (by omega)).1
            have e2 := (ih m (by omega) c (by omega)).1
            rw [e1, e2]
          have hsome : ∀ c, Json.size c < Json.size j → (goB fm c).isSome := by
            intro c hc
            exact (ih fm (Nat.lt_succ_self fm) c (by omega)).2
          constructor
          · show blockStep (goB fm) j = goB (Json.size j) j
            rw [hm]
            show blockStep (goB fm) j = blockStep (goB m) j
            exact blockStep_congr hcong
          · show (blockStep (goB fm) j).isSome
            exact blockStep_some hsome

theorem goB_total (j : Json) : goB (Json.size j) j = some (convertBlockToMarkdown j) := by
  have h := goB_spec (Json.size j) j le_rfl
  rcases Option.isSome_iff_exists.mp h.2 with ⟨r, hr⟩
  simp [convertBlockToMarkdown, hr]

theorem goB_eq {fuel : Nat} (j : Json) (h : Json.size j ≤ fuel) :
    goB fuel j = some (convertBlockToMarkdown j) := by
  rw [(goB_spec fuel j h).1, goB_total]

/-- Recursion-closed form of the converter: one `blockStep` whose recursive
calls are the converter itself.  All claim proofs unfold through this. -/
theorem blockStep_convert (j : Json) :
    blockStep (fun c => some (convertBlockToMarkdown c)) j
      = some (convertBlockToMarkdown j) := by
  have hpos := Json.size_pos j
  have h1 : blockStep (fun c => some (convertBlockToMarkdown c)) j
      = blockStep (goB (Json.size j - 1)) j :=
    blockStep_congr fun c hc => (goB_eq c (by omega)).symm
  have h2 : blockStep (goB (Json.size j - 1)) j = goB (Json.size j) j := by
    have : Json.size j = (Json.size j - 1) + 1 := by omega
    rw [this]
    rfl
  rw [h1, h2, goB_total]

/-- Model of `content.map(convertBlockToMarkdown)` with left-to-right
exception propagation. -/
def mapConv : List Json → Except Unit (List Json)
  | [] => .ok []
  | x :: xs =>
      match convertBlockToMarkdown x with
      | .error e => .error e
      | .ok r =>
          match mapConv xs with
          | .error e => .error e
          | .ok rs => .ok (r :: rs)

/-- Model of the outer filter
`.filter(text => text && typeof text === "string" && text.trim().length > 0)`:
keeps exactly the truthy strings whose trim is non-empty (non-string results
are dropped; the `typeof` test precedes `.trim()`, so this filter never
throws). -/
def keepGood : List Json → List String
  | [] => []
  | .str s :: rest =>
      if s ≠ "" ∧ 0 < (jsTrim s).length then s :: keepGood rest else keepGood rest
  | _ :: rest => keepGood rest

/-- Model of `convertStrapiContentToMarkdown` (src/lib/strapi-content.ts,
lines 2-49): strings pass through, arrays are converted block-by-block,
filtered and joined with blank lines (the diagnostic logging, the dead
`Array.isArray(result)` re-check and the final `result || ""` — the identity
on strings — are omitted), and any other value is stringified. -/
def convertStrapiContentToMarkdown : Json → Except Unit Json
  | .str s => .ok (.str s)
  | .arr xs =>
      match mapConv xs with
      | .error e => .error e
      | .ok rs => .ok (.str (joinSep "\n\n" (keepGood rs)))
  | j => .ok (.str (jsonStringify j))

/-- Test that a value is not JavaScript `null`. -/
def nonNullB : Json → Bool
  | .null => false
  | _ => true

/-- Safety condition on a `children` property value: when truthy it must be
an array of non-null values (otherwise `.map` or a property access on a
list item throws). -/
def childFieldOK : Option Json → Bool
  | none => true
  | some c =>
      !c.truthy ||
        (match c with
        | .arr xs => xs.all nonNullB
        | _ => false)

/-- Safety condition on a `text` property value: when truthy it must be a
string (otherwise the paragraph filter calls `.trim()` on a non-string). -/
def textFieldOK : Option Json → Bool
  | none => true
  | some v =>
      !v.truthy ||
        (match v with
        | .str _ => true
        | _ => false)

/-- Safety condition on a `level` property value: when truthy its numeric
coercion must not be negative (otherwise `"#".repeat` throws a
`RangeError`). -/
def levelFieldOK : Option Json → Bool
  | none => true
  | some v =>
      !v.truthy ||
        (match jsToNumber v with
        | none => true
        | some n => decide (0 ≤ n))

/-- Fuelled hereditary well-formedness of a content value: every object in
the tree (through all fields) has safe `children`, `text` and `level`
properties.  On such values the converter never throws. -/
def wfGo : Nat → Json → Bool
  | 0, _ => false
  | fuel + 1, .arr xs => xs.all (wfGo fuel)
  | fuel + 1, .obj fs =>
      childFieldOK (lookupField fs "children") &&
      textFieldOK (lookupField fs "text") &&
      levelFieldOK (lookupField fs "level") &&
      fs.all fun kv => wfGo fuel kv.2
  | _ + 1, _ => true

/-- Hereditary well-formedness of a content value. -/
def jsonWF (j : Json) : Bool := wfGo (Json.size j) j

theorem all_congr_mem {α : Type} {xs : List α} {f g : α → Bool}
    (h : ∀ x ∈ xs, f x = g x) : xs.all f = xs.all g := by
  induction xs with
  | nil => rfl
  | cons x xs ih =>
      simp only [List.all_cons, h x (List.mem_cons_self x xs),
        ih fun y hy => h y (List.mem_cons_of_mem x hy)]

theorem size_lt_of_field_mem {fs : List (String × Json)} {kv : String × Json}
    (h : kv ∈ fs) : Json.size kv.2 < Json.size (Json.obj fs) := by
  have h1 : Json.size kv.2 < Json.sizeFields fs := by
    induction fs with
    | nil => cases h
    | cons kv0 rest ihf =>
        rcases List.mem_cons.mp h with rfl | h2
        · simp [Json.sizeFields]; omega
        · have := ihf h2
          simp [Json.sizeFields]; omega
  simp [Json.size]; omega

theorem wfGo_spec : ∀ (fuel : Nat) (j : Json), Json.size j ≤ fuel →
    wfGo fuel j = jsonWF j := by
  intro fuel
  induction fuel using Nat.strong_induction_on with
  | _ fuel ih =>
      intro j hle
      have hpos := Json.size_pos j
      cases fuel with
      | zero => omega
      | succ fm =>
          obtain ⟨m, hm⟩ : ∃ m, Json.size j = m + 1 := ⟨Json.size j - 1, by omega⟩
          unfold jsonWF
          rw [hm]
          cases j with
          | arr xs =>
              show xs.all (wfGo fm) = xs.all (wfGo m)
              apply all_congr_mem
              intro x hx
              have hx1 : Json.size x < Json.size (Json.arr xs) := size_lt_of_mem_arr hx
              rw [ih fm (Nat.lt_succ_self fm) x (by omega),
                ih m (by omega) x (by omega)]
          | obj fs =>
              have : fs.all (fun kv => wfGo fm kv.2) = fs.all (fun kv => wfGo m kv.2) := by
                apply all_congr_mem
                intro kv hkv
                have hsz : Json.size kv.2 < Json.size (Json.obj fs) :=
                  size_lt_of_field_mem hkv
                rw [ih fm (Nat.lt_succ_self fm) kv.2 (by omega),
                  ih m (by omega) kv.2 (by omega)]
              show wfGo (fm + 1) (Json.obj fs) = wfGo (m + 1) (Json.obj fs)
              simp only [wfGo]
              rw [this]
          | null => rfl
          | bool b => rfl
          | num n => rfl
          | str s => rfl

theorem jsonWF_arr {xs : List Json} : jsonWF (.arr xs) = xs.all jsonWF := by
  unfold jsonWF
  have : Json.size (Json.arr xs) = Json.sizeList xs + 1 := by simp [Json.size]; omega
  rw [this]
  show xs.all (wfGo (Json.sizeList xs)) = xs.all jsonWF
  apply all_congr_mem
  intro x hx
  exact wfGo_spec _ x (le_of_lt (size_lt_of_mem_sizeList hx))

theorem jsonWF_obj {fs : List (String × Json)} :
    jsonWF (.obj fs) =
      (childFieldOK (lookupField fs "children") &&
       textFieldOK (lookupField fs "text") &&
       levelFieldOK (lookupField fs "level") &&
       fs.all fun kv => jsonWF kv.2) := by
  unfold jsonWF
  have : Json.size (Json.obj fs) = Json.sizeFields fs + 1 := by simp [Json.size]; omega
  rw [this]
  show (_ && _ && _ && fs.all fun kv => wfGo (Json.sizeFields fs) kv.2) = _
  have : (fs.all fun kv => wfGo (Json.sizeFields fs) kv.2)
      = fs.all fun kv => jsonWF kv.2 := by
    apply all_congr_mem
    intro kv hkv
    apply wfGo_spec
    have := size_lt_of_field_mem hkv
    have h2 : Json.size (Json.obj fs) = Json.sizeFields fs + 1 := by
      simp [Json.size]; omega
    omega
  rw [this]
  rfl

theorem lookup_mem {fs : List (String × Json)} {k : String} {v : Json}
    (h : lookupField fs k = some v) : (k, v) ∈ fs := by
  induction fs with
  | nil => simp [lookupField] at h
  | cons kv rest ih =>
      cases kv with
      | mk k1 v1 =>
          by_cases hk : k1 = k
          · simp only [lookupField, if_pos hk, Option.some.injEq] at h
            subst hk; subst h
            exact List.mem_cons_self _ _
          · simp only [lookupField, if_neg hk] at h
            exact List.mem_cons_of_mem _ (ih h)

theorem jsonWF_field {fs : List (String × Json)} {k : String} {v : Json}
    (hwf : jsonWF (.obj fs) = true) (h : lookupField fs k = some v) :
    jsonWF v = true := by
  rw [jsonWF_obj] at hwf
  simp only [Bool.and_eq_true, List.all_eq_true] at hwf
  exact hwf.2 (k, v) (lookup_mem h)

theorem mapGo_ok_str {f : Json → Option (Except Unit Json)} {xs : List Json}
    (h : ∀ x ∈ xs, ∃ s, f x = some (.ok (.str s))) :
    ∃ ss : List String, mapGo f xs = some (.ok (ss.map Json.str)) := by
  induction xs with
  | nil => exact ⟨[], rfl⟩
  | cons x xs ih =>
      rcases h x (List.mem_cons_self x xs) with ⟨s, hs⟩
      rcases ih (fun y hy => h y (List.mem_cons_of_mem x hy)) with ⟨ss, hss⟩
      refine ⟨s :: ss, ?_⟩
      simp [mapGo, hs, hss]

theorem filterTrim_str (ss : List String) :
    ∃ kept : List String, filterTrimNonempty (ss.map Json.str) = .ok (kept.map Json.str) := by
  induction ss with
  | nil => exact ⟨[], rfl⟩
  | cons s ss ih =>
      rcases ih with ⟨kept, hk⟩
      by_cases hs : 0 < (jsTrim s).length
      · exact ⟨s :: kept, by simp [filterTrimNonempty, hk, hs]⟩
      · exact ⟨kept, by simp [filterTrimNonempty, hk, hs]⟩

theorem childrenConv_wf {f : Json → Option (Except Unit Json)} {co : Option Json}
    (hok : childFieldOK co = true)
    (h : ∀ xs, co = some (.arr xs) → ∀ x ∈ xs, ∃ s, f x = some (.ok (.str s))) :
    ∃ out : String, childrenConv f co = some (.ok out) := by
  match co with
  | none => exact ⟨"", rfl⟩
  | some c =>
      by_cases ht : c.truthy
      · cases c with
        | arr xs =>
            rcases mapGo_ok_str (h xs rfl) with ⟨ss, hss⟩
            refine ⟨jsArrJoin "" (ss.map Json.str), ?_⟩
            simp [childrenConv, ht, hss]
        | null => simp [Json.truthy] at ht
        | bool b =>
            simp [childFieldOK, ht] at hok
        | num n =>
            simp [childFieldOK, ht] at hok
        | str s =>
            simp [childFieldOK, ht] at hok
        | obj fs =>
            simp [childFieldOK, ht] at hok
      · refine ⟨"", ?_⟩
        cases c <;> simp_all [childrenConv]

theorem guardedConv_wf {f : Json → Option (Except Unit Json)} {sep : String}
    {co : Option Json}
    (h : ∀ xs, co = some (.arr xs) → ∀ x ∈ xs, ∃ s, f x = some (.ok (.str s))) :
    ∃ out : String, guardedConv f sep co = some (.ok out) := by
  match co with
  | none => exact ⟨"", rfl⟩
  | some c =>
      cases c with
      | arr xs =>
          rcases mapGo_ok_str (h xs rfl) with ⟨ss, hss⟩
          exact ⟨jsArrJoin sep (ss.map Json.str), by simp [guardedConv, hss]⟩
      | null => exact ⟨"", rfl⟩
      | bool b => exact ⟨"", rfl⟩
      | num n => exact ⟨"", rfl⟩
      | str s => exact ⟨"", rfl⟩
      | obj fs => exact ⟨"", rfl⟩

theorem paraConv_wf {f : Json → Option (Except Unit Json)} {co : Option Json}
    (h : ∀ xs, co = some (.arr xs) → ∀ x ∈ xs, ∃ s, f x = some (.ok (.str s))) :
    ∃ out : String, paraConv f co = some (.ok out) := by
  match co with
  | none => exact ⟨"", rfl⟩
  | some c =>
      cases c with
      | arr xs =>
          rcases mapGo_ok_str (h xs rfl) with ⟨ss, hss⟩
          rcases filterTrim_str ss with ⟨kept, hk⟩
          exact ⟨jsArrJoin "" (kept.map Json.str), by simp [paraConv, hss, hk]⟩
      | null => exact ⟨"", rfl⟩
      | bool b => exact ⟨"", rfl⟩
      | num n => exact ⟨"", rfl⟩
      | str s => exact ⟨"", rfl⟩
      | obj fs => exact ⟨"", rfl⟩

theorem textFallback_wf {tx : Option Json} (hok : textFieldOK tx = true) :
    ∃ s, textFallback tx = some (.ok (.str s)) := by
  match tx with
  | none => exact ⟨"", rfl⟩
  | some v =>
      by_cases ht : v.truthy
      · cases v with
        | str s => exact ⟨s, by simp [textFallback, ht]⟩
        | null => simp [Json.truthy] at ht
        | bool b => simp [textFieldOK, ht] at hok
        | num n => simp [textFieldOK, ht] at hok
        | arr xs => simp [textFieldOK, ht] at hok
        | obj fs => simp [textFieldOK, ht] at hok
      · exact ⟨"", by simp [textFallback, ht]⟩

theorem defaultConv_wf {f : Json → Option (Except Unit Json)} {co tx : Option Json}
    (hok : textFieldOK tx = true)
    (h : ∀ xs, co = some (.arr xs) → ∀ x ∈ xs, ∃ s, f x = some (.ok (.str s))) :
    ∃ s, defaultConv f co tx = some (.ok (.str s)) := by
  match co with
  | none => exact textFallback_wf hok
  | some c =>
      cases c with
      | arr xs =>
          rcases mapGo_ok_str (h xs rfl) with ⟨ss, hss⟩
          exact ⟨jsArrJoin "" (ss.map Json.str), by simp [defaultConv, hss]⟩
      | null => exact textFallback_wf hok
      | bool b => exact textFallback_wf hok
      | num n => exact textFallback_wf hok
      | str s => exact textFallback_wf hok
      | obj fs => exact textFallback_wf hok

theorem headingHashes_wf {v : Json} (hok : levelFieldOK (some v) = true)
    (ht : v.truthy = true) : ∃ s, headingHashes v = .ok s := by
  simp only [levelFieldOK, ht, Bool.not_true, Bool.false_or] at hok
  cases hn : jsToNumber v with
  | none => exact ⟨"", by unfold headingHashes; simp only [hn]⟩
  | some n =>
      rw [hn] at hok
      simp only [decide_eq_true_eq] at hok
      exact ⟨String.mk (List.replicate (min n 6).toNat '#'),
        by unfold headingHashes; simp only [hn]; rw [if_neg (by omega)]⟩

theorem listItemText_wf {f : Json → Option (Except Unit Json)} {item : Json}
    (hnn : nonNullB item = true) (hwf : jsonWF item = true)
    (h : ∀ ys, item.get "children" = some (.arr ys) →
      ∀ y ∈ ys, ∃ s, f y = some (.ok (.str s))) :
    ∃ out : String, listItemText f item = some (.ok out) := by
  cases item with
  | null => simp [nonNullB] at hnn
  | obj fs =>
      have hck : childFieldOK (lookupField fs "children") = true := by
        rw [jsonWF_obj] at hwf
        simp only [Bool.and_eq_true] at hwf
        exact hwf.1.1.1
      exact childrenConv_wf hck fun ys hys => h ys hys
  | bool b => exact ⟨"", rfl⟩
  | num n => exact ⟨"", rfl⟩
  | str s => exact ⟨"", rfl⟩
  | arr xs => exact ⟨"", rfl⟩

theorem listItemsGo_wf {f : Json → Option (Except Unit Json)} {o : Option Json}
    {xs : List Json} {idx : Nat}
    (h : ∀ item ∈ xs, ∃ out : String, listItemText f item = some (.ok out)) :
    ∃ lines : List String, listItemsGo f o xs idx = some (.ok lines) := by
  induction xs generalizing idx with
  | nil => exact ⟨[], rfl⟩
  | cons item rest ih =>
      rcases h item (List.mem_cons_self item rest) with ⟨out, ho⟩
      rcases @ih (idx + 1) (fun y hy => h y (List.mem_cons_of_mem item hy))
        with ⟨lines, hl⟩
      refine ⟨((if truthyOpt o then toString (idx + 1) ++ "." else "-")
        ++ " " ++ out) :: lines, ?_⟩
      simp [listItemsGo, ho, hl]

theorem listConv_wf {f : Json → Option (Except Unit Json)} {o : Option Json}
    {co : Option Json}
    (h : ∀ xs, co = some (.arr xs) → ∀ item ∈ xs,
      ∃ out : String, listItemText f item = some (.ok out)) :
    ∃ out : String, listConv f o co = some (.ok out) := by
  match co with
  | none => exact ⟨"", rfl⟩
  | some c =>
      cases c with
      | arr xs =>
          rcases @listItemsGo_wf f o xs 0 (h xs rfl) with ⟨lines, hl⟩
          exact ⟨joinSep "\n" lines, by simp [listConv, hl]⟩
      | null => exact ⟨"", rfl⟩
      | bool b => exact ⟨"", rfl⟩
      | num n => exact ⟨"", rfl⟩
      | str s => exact ⟨"", rfl⟩
      | obj fs => exact ⟨"", rfl⟩

theorem jsOr_text_wf {tx : Option Json} (hok : textFieldOK tx = true) :
    ∃ s, jsOr tx (.str "") = .str s := by
  match tx with
  | none => exact ⟨"", rfl⟩
  | some v =>
      by_cases ht : v.truthy
      · cases v with
        | str s => exact ⟨s, by simp [jsOr, ht]⟩
        | null => simp [Json.truthy] at ht
        | bool b => simp [textFieldOK, ht] at hok
        | num n => simp [textFieldOK, ht] at hok
        | arr xs => simp [textFieldOK, ht] at hok
        | obj fs => simp [textFieldOK, ht] at hok
      · exact ⟨"", by simp [jsOr, ht]⟩

theorem blockStep_wf {f : Json → Option (Except Unit Json)} {block : Json}
    (hwf : jsonWF block = true)
    (h : ∀ c, Json.size c < Json.size block → jsonWF c = true →
      ∃ s, f c = some (.ok (.str s))) :
    ∃ s, blockStep f block = some (.ok (.str s)) := by
  cases block with
  | null => exact ⟨"", rfl⟩
  | bool b => exact ⟨"", by cases b <;> rfl⟩
  | num n =>
      refine ⟨"", ?_⟩
      unfold blockStep
      rw [if_pos (by simp [Json.truthy, Json.typeofObject])]
  | str s =>
      refine ⟨"", ?_⟩
      unfold blockStep
      rw [if_pos (by simp [Json.truthy, Json.typeofObject])]
  | arr xs => exact ⟨"", rfl⟩
  | obj fs =>
      rw [jsonWF_obj] at hwf
      simp only [Bool.and_eq_true, List.all_eq_true] at hwf
      obtain ⟨⟨⟨hchild, htext⟩, hlevel⟩, hfields⟩ := hwf
      have hget : ∀ k, (Json.obj fs).get k = lookupField fs k := fun _ => rfl
      have hwf_child : ∀ xs0, lookupField fs "children" = some (.arr xs0) →
          ∀ x ∈ xs0, jsonWF x = true := by
        intro xs0 hl x hx
        have h1 : jsonWF (Json.arr xs0) = true := hfields _ (lookup_mem hl)
        rw [jsonWF_arr] at h1
        exact List.all_eq_true.mp h1 x hx
      have hnn_child : ∀ xs0, lookupField fs "children" = some (.arr xs0) →
          ∀ x ∈ xs0, nonNullB x = true := by
        intro xs0 hl x hx
        unfold childFieldOK at hchild
        rw [hl] at hchild
        simp only [Json.truthy, Bool.not_true, Bool.false_or] at hchild
        exact List.all_eq_true.mp hchild x hx
      have hconv : ∀ xs0, lookupField fs "children" = some (.arr xs0) →
          ∀ x ∈ xs0, ∃ s, f x = some (.ok (.str s)) := by
        intro xs0 hl x hx
        have hsz : Json.size x < Json.size (Json.obj fs) :=
          lt_trans (size_lt_of_mem_arr hx) (@size_lt_of_get (Json.obj fs) _ _ hl)
        exact h x hsz (hwf_child xs0 hl x hx)
      have hitems : ∀ xs0, lookupField fs "children" = some (.arr xs0) →
          ∀ item ∈ xs0, ∃ out : String, listItemText f item = some (.ok out) := by
        intro xs0 hl item hit
        apply listItemText_wf (hnn_child xs0 hl item hit) (hwf_child xs0 hl item hit)
        intro ys hys y hy
        have h1 : Json.size y < Json.size (Json.arr ys) := size_lt_of_mem_arr hy
        have h2 : Json.size (Json.arr ys) < Json.size item := size_lt_of_get hys
        have h3 : Json.size item < Json.size (Json.arr xs0) := size_lt_of_mem_arr hit
        have h4 : Json.size (Json.arr xs0) < Json.size (Json.obj fs) :=
          @size_lt_of_get (Json.obj fs) _ _ hl
        have hywf : jsonWF y = true := by
          have hi := hwf_child xs0 hl item hit
          cases item with
          | obj gs =>
              have : jsonWF (Json.arr ys) = true :=
                jsonWF_field hi (by exact hys)
              rw [jsonWF_arr] at this
              exact List.all_eq_true.mp this y hy
          | null => simp [Json.get] at hys
          | bool b => simp [Json.get] at hys
          | num n => simp [Json.get] at hys
          | str s => simp [Json.get] at hys
          | arr zs => simp [Json.get] at hys
        exact h y (by omega) hywf
      unfold blockStep
      rw [if_neg (by simp [Json.truthy, Json.typeofObject])]
      cases hty : (Json.obj fs).get "type" with
      | none => exact defaultConv_wf htext hconv
      | some tv =>
          cases tv with
          | str t =>
              dsimp only
              unfold typedStep
              cases classifyType t with
              | text =>
                  dsimp only
                  rcases jsOr_text_wf htext with ⟨s, hs⟩
                  refine ⟨s, ?_⟩
                  simp only [hget, hs]
              | paragraph =>
                  dsimp only
                  rcases @paraConv_wf f (lookupField fs "children") hconv
                    with ⟨out, ho⟩
                  refine ⟨out, ?_⟩
                  simp only [hget, ho]
                  rfl
              | heading =>
                  dsimp only
                  by_cases hlt : truthyOpt ((Json.obj fs).get "level")
                  · rw [if_pos hlt]
                    obtain ⟨v, hv, hvt⟩ : ∃ v, (Json.obj fs).get "level" = some v
                        ∧ v.truthy = true := by
                      cases hl : (Json.obj fs).get "level" with
                      | none => rw [hl] at hlt; simp [truthyOpt] at hlt
                      | some v =>
                          rw [hl] at hlt
                          exact ⟨v, rfl, by simpa [truthyOpt] using hlt⟩
                    have hlv : levelFieldOK (some v) = true := by
                      rw [hget] at hv; rw [← hv]; exact hlevel
                    rcases headingHashes_wf hlv hvt with ⟨hhstr, hhs⟩
                    rw [hv]
                    simp only [Option.getD_some]
                    rw [hhs]
                    cases hch : lookupField fs "children" with
                    | none => exact ⟨"", by simp only [hget, hch]⟩
                    | some cv =>
                        cases cv with
                        | arr xs =>
                            rcases @guardedConv_wf f "" (lookupField fs "children")
                              hconv with ⟨out, ho⟩
                            rw [hch] at ho
                            refine ⟨hhstr ++ " " ++ out, ?_⟩
                            simp only [hget, hch, ho]
                            rfl
                        | null => exact ⟨"", by simp only [hget, hch]⟩
                        | bool b => exact ⟨"", by simp only [hget, hch]⟩
                        | num n => exact ⟨"", by simp only [hget, hch]⟩
                        | str s2 => exact ⟨"", by simp only [hget, hch]⟩
                        | obj gs => exact ⟨"", by simp only [hget, hch]⟩
                  · rw [if_neg hlt]
                    exact defaultConv_wf htext hconv
              | list =>
                  dsimp only
                  rcases @listConv_wf f (lookupField fs "ordered")
                    (lookupField fs "children") hitems with ⟨out, ho⟩
                  refine ⟨out, ?_⟩
                  simp only [hget, ho]
                  rfl
              | listItem =>
                  dsimp only
                  rcases @guardedConv_wf f "" (lookupField fs "children")
                    hconv with ⟨out, ho⟩
                  refine ⟨out, ?_⟩
                  simp only [hget, ho]
                  rfl
              | code =>
                  dsimp only
                  rcases @childrenConv_wf f (lookupField fs "children")
                    hchild hconv with ⟨out, ho⟩
                  refine ⟨"```" ++ jsToString (jsOr (lookupField fs "language") (.str ""))
                    ++ "\n" ++ out ++ "\n```", ?_⟩
                  simp only [hget, ho]
                  rfl
              | codeInline =>
                  dsimp only
                  rcases @childrenConv_wf f (lookupField fs "children")
                    hchild hconv with ⟨out, ho⟩
                  refine ⟨"`" ++ out ++ "`", ?_⟩
                  simp only [hget, ho]
                  rfl
              | link =>
                  dsimp only
                  rcases @childrenConv_wf f (lookupField fs "children")
                    hchild hconv with ⟨out, ho⟩
                  refine ⟨"[" ++ out ++ "]("
                    ++ jsToString (jsOr (lookupField fs "url") (.str "#")) ++ ")", ?_⟩
                  simp only [hget, ho]
                  rfl
              | bold =>
                  dsimp only
                  rcases @childrenConv_wf f (lookupField fs "children")
                    hchild hconv with ⟨out, ho⟩
                  refine ⟨"**" ++ out ++ "**", ?_⟩
                  simp only [hget, ho]
                  rfl
              | italic =>
                  dsimp only
                  rcases @childrenConv_wf f (lookupField fs "children")
                    hchild hconv with ⟨out, ho⟩
                  refine ⟨"*" ++ out ++ "*", ?_⟩
                  simp only [hget, ho]
                  rfl
              | blockquote =>
                  dsimp only
                  cases hch : lookupField fs "children" with
                  | none => exact ⟨"", by simp only [hget, hch]⟩
                  | some cv =>
                      cases cv with
                      | arr xs =>
                          rcases @guardedConv_wf f "\n" (lookupField fs "children")
                            hconv with ⟨out, ho⟩
                          rw [hch] at ho
                          refine ⟨quoteLines out, ?_⟩
                          simp only [hget, hch, ho]
                          rfl
                      | null => exact ⟨"", by simp only [hget, hch]⟩
                      | bool b => exact ⟨"", by simp only [hget, hch]⟩
                      | num n => exact ⟨"", by simp only [hget, hch]⟩
                      | str s2 => exact ⟨"", by simp only [hget, hch]⟩
                      | obj gs => exact ⟨"", by simp only [hget, hch]⟩
              | hr => exact ⟨"---", rfl⟩
              | image =>
                  dsimp only
                  refine ⟨"![" ++ jsToString (jsOr (lookupField fs "alt") (.str ""))
                    ++ "](" ++ jsToString (jsOr (lookupField fs "url")
                      (jsOr (lookupField fs "src") (.str ""))) ++ ")", ?_⟩
                  simp only [hget]
              | other => exact defaultConv_wf htext hconv
          | null => exact defaultConv_wf htext hconv
          | bool b => exact defaultConv_wf htext hconv
          | num n => exact defaultConv_wf htext hconv
          | arr ys => exact defaultConv_wf htext hconv
          | obj gs => exact defaultConv_wf htext hconv

theorem convertBlock_wf : ∀ (j : Json), jsonWF j = true →
    ∃ s, convertBlockToMarkdown j = .ok (.str s) := by
  have main : ∀ (n : Nat) (j : Json), Json.size j ≤ n → jsonWF j = true →
      ∃ s, convertBlockToMarkdown j = .ok (.str s) := by
    intro n
    induction n using Nat.strong_induction_on with
    | _ n ih =>
        intro j hle hwf
        have hbs := blockStep_convert j
        have hpos := Json.size_pos j
        rcases @blockStep_wf (fun c => some (convertBlockToMarkdown c)) j hwf
            (fun c hc hcwf => by
              rcases ih (Json.size c) (by omega) c le_rfl hcwf with ⟨s, hs⟩
              exact ⟨s, by simp only [hs]⟩) with ⟨s, hs⟩
        rw [hbs] at hs
        exact ⟨s, by injection hs⟩
  exact fun j => main (Json.size j) j le_rfl

/-!
Model of `BlockComponent` (components/BlocksRenderer.tsx, src/unnamed/part_003).
Rendered React output is modelled by `RNode`; throwing renders (property
access on `null` items, `.map` on truthy non-arrays, objects as JSX
children) are `Except Unit` errors, and fuel handles the recursion exactly
as for the markdown converter.
-/

/-- Model of rendered React output: `nothing` is React's null/ignored
child, `text` a text node, `tag` an element with its attributes, `frag` a
fragment. -/
inductive RNode where
  | nothing : RNode
  | text (s : String) : RNode
  | tag (name : String) (attrs : List (String × String)) (children : List RNode) : RNode
  | frag (children : List RNode) : RNode

mutual
/-- Model of rendering a JavaScript value as a JSX child: strings and
numbers become text, booleans and `null` render nothing, arrays render
their elements, plain objects make React throw. -/
def jxGo : Nat → Json → Except Unit RNode
  | 0, _ => .error ()
  | _ + 1, .str s => .ok (.text s)
  | _ + 1, .num n => .ok (.text (toString n))
  | _ + 1, .bool _ => .ok .nothing
  | _ + 1, .null => .ok .nothing
  | fuel + 1, .arr xs =>
      match jxList fuel xs with
      | .error e => .error e
      | .ok ns => .ok (.frag ns)
  | _ + 1, .obj _ => .error ()
/-- List companion of `jxGo`. -/
def jxList (fuel : Nat) : List Json → Except Unit (List RNode)
  | [] => .ok []
  | x :: xs =>
      match jxGo fuel x with
      | .error e => .error e
      | .ok n =>
          match jxList fuel xs with
          | .error e => .error e
          | .ok ns => .ok (n :: ns)
end

/-- Model of rendering a JavaScript value as a JSX child (fuel
`Json.size`, sufficient by `jxGo_spec`). -/
def jsxRender (j : Json) : Except Unit RNode := jxGo (Json.size j) j

theorem jxList_congr {f1 f2 : Nat} {xs : List Json}
    (h : ∀ x ∈ xs, jxGo f1 x = jxGo f2 x) : jxList f1 xs = jxList f2 xs := by
  induction xs with
  | nil => rfl
  | cons x xs ih =>
      simp only [jxList, h x (List.mem_cons_self x xs),
        ih fun y hy => h y (List.mem_cons_of_mem x hy)]

theorem jxGo_spec : ∀ (fuel : Nat) (j : Json), Json.size j ≤ fuel →
    jxGo fuel j = jsxRender j := by
  intro fuel
  induction fuel using Nat.strong_induction_on with
  | _ fuel ih =>
      intro j hle
      have hpos := Json.size_pos j
      cases fuel with
      | zero => omega
      | succ fm =>
          obtain ⟨m, hm⟩ : ∃ m, Json.size j = m + 1 := ⟨Json.size j - 1, by omega⟩
          unfold jsxRender
          rw [hm]
          cases j with
          | arr xs =>
              have : jxList fm xs = jxList m xs := by
                apply jxList_congr
                intro x hx
                have hx1 : Json.size x < Json.size (Json.arr xs) := size_lt_of_mem_arr hx
                rw [ih fm (Nat.lt_succ_self fm) x (by omega),
                  ih m (by omega) x (by omega)]
              simp only [jxGo, this]
          | null => rfl
          | bool b => rfl
          | num n => rfl
          | str s => rfl
          | obj fs => rfl

/-- Heading size class chosen by `getHeadingClass` (the renderer's lookup
table with `"text-xl"` default). -/
def getHeadingClass : Option Int → String
  | some 1 => "text-4xl"
  | some 2 => "text-3xl"
  | some 3 => "text-2xl"
  | some 4 => "text-xl"
  | some 5 => "text-lg"
  | some 6 => "text-base"
  | _ => "text-xl"

/-- Numeric heading level `Math.min(level || 1, 6)` (`none` is `NaN`). -/
def headingLevelNum (level : Option Json) : Option Int :=
  match jsToNumber (jsOr level (.num 1)) with
  | some n => some (min n 6)
  | none => none

/-- Tag name `h${headingLevel}` (NaN prints as "NaN", as template literals
do). -/
def headingTagName (level : Option Json) : String :=
  "h" ++ (match headingLevelNum level with
    | some n => toString n
    | none => "NaN")

/-- Model of `url?.startsWith("http")`: `undefined` and `null` short
circuit to false, a non-string receiver makes `.startsWith` throw. -/
def startsHttp : Option Json → Except Unit Bool
  | none => .ok false
  | some .null => .ok false
  | some (.str s) => .ok (s.startsWith "http")
  | some _ => .error ()

/-- Generic mapping of the renderer over a list of child blocks. -/
def mapRGo (f : Json → Option (Except Unit RNode)) :
    List Json → Option (Except Unit (List RNode))
  | [] => some (.ok [])
  | x :: xs =>
      match f x with
      | none => none
      | some (.error e) => some (.error e)
      | some (.ok n) =>
          match mapRGo f xs with
          | none => none
          | some (.error e) => some (.error e)
          | some (.ok ns) => some (.ok (n :: ns))

/-- Model of one list item of the renderer:
`<li className="mb-2 ml-4">{item.children && item.children.map(...)}</li>`.
A `null` item throws on the property access; a truthy non-array `children`
throws on `.map`; a falsy `children` value renders as a JSX child. -/
def renderListItem (f : Json → Option (Except Unit RNode)) (item : Json) :
    Option (Except Unit RNode) :=
  match item.getE "children" with
  | .error _ => some (.error ())
  | .ok none => some (.ok (.tag "li" [("className", "mb-2 ml-4")] [.nothing]))
  | .ok (some c) =>
      if c.truthy then
        match c with
        | .arr ys =>
            match mapRGo f ys with
            | none => none
            | some (.error e) => some (.error e)
            | some (.ok ns) =>
                some (.ok (.tag "li" [("className", "mb-2 ml-4")] [.frag ns]))
        | _ => some (.error ())
      else
        match jsxRender c with
        | .error e => some (.error e)
        | .ok n => some (.ok (.tag "li" [("className", "mb-2 ml-4")] [n]))

/-- Indexed map over list items. -/
def renderItemsGo (f : Json → Option (Except Unit RNode)) :
    List Json → Option (Except Unit (List RNode))
  | [] => some (.ok [])
  | item :: rest =>
      match renderListItem f item with
      | none => none
      | some (.error e) => some (.error e)
      | some (.ok n) =>
          match renderItemsGo f rest with
          | none => none
          | some (.error e) => some (.error e)
          | some (.ok ns) => some (.ok (n :: ns))

/-- Model of the code branches' text extraction:
`children.map(child => child.type === "text" ? child.text : "").join("")`
(a `null` child throws on `child.type`; `.join` stringifies, with
`undefined` joining as the empty string). -/
def codeJoin : List Json → Except Unit String
  | [] => .ok ""
  | child :: rest =>
      match child.getE "type" with
      | .error _ => .error ()
      | .ok tv =>
          match codeJoin rest with
          | .error e => .error e
          | .ok restStr =>
              .ok ((match tv with
                | some (.str t) =>
                    if t = "text" then
                      match child.get "text" with
                      | none => ""
                      | some v => joinElem v
                    else ""
                | _ => "") ++ restStr)

/-- Discrimination of the `type` strings recognized by `BlockComponent`
(this list differs from the markdown converter's: it also knows `quote`
and `inlineCode`, and headings are recognized regardless of `level`). -/
inductive RKind where
  | text | paragraph | heading | list | listItem | link | bold | italic
  | blockquote | code | codeInline | image | hr | other

/-- Classification of a `type` string by `BlockComponent`'s chain of
comparisons. -/
def classifyRender (t : String) : RKind :=
  if t = "text" then .text
  else if t = "paragraph" then .paragraph
  else if t = "heading" then .heading
  else if t = "list" then .list
  else if t = "list-item" then .listItem
  else if t = "link" then .link
  else if t = "bold" || t = "strong" then .bold
  else if t = "italic" || t = "emphasis" then .italic
  else if t = "blockquote" || t = "quote" then .blockquote
  else if t = "code" then .code
  else if t = "code-inline" || t = "inlineCode" then .codeInline
  else if t = "image" then .image
  else if t = "hr" || t = "horizontal-rule" then .hr
  else .other

/-- Model of the renderer's guard pattern
`if (!children || !Array.isArray(children)) return fallback;` followed by
`children.map(BlockComponent)` wrapped in an element. -/
def rguard (f : Json → Option (Except Unit RNode)) (co : Option Json)
    (fallback : RNode) (wrap : List RNode → RNode) : Option (Except Unit RNode) :=
  match co with
  | some (.arr xs) =>
      match mapRGo f xs with
      | none => none
      | some (.error e) => some (.error e)
      | some (.ok ns) => some (.ok (wrap ns))
  | _ => some (.ok fallback)

/-- The `ol`/`ul` choice `block.format === "ordered" ? "ol" : "ul"`. -/
def listTagName (fmt : Option Json) : String :=
  match fmt with
  | some (.str ft) => if ft = "ordered" then "ol" else "ul"
  | _ => "ul"

/-- Branch chain of `BlockComponent` for a block whose `type` property is
the string `t`, recursive calls abstracted as `f`. -/
def renderTypedStep (f : Json → Option (Except Unit RNode)) (block : Json)
    (t : String) : Option (Except Unit RNode) :=
  match classifyRender t with
  | .text =>
      match jsxRender (jsOr (block.get "text") (.str "")) with
      | .error e => some (.error e)
      | .ok n => some (.ok (.frag [n]))
  | .paragraph =>
      rguard f (block.get "children") (.tag "br" [] [])
        (fun ns => .tag "p" [("className", "mb-4")] ns)
  | .heading =>
      rguard f (block.get "children") .nothing
        (fun ns => .tag (headingTagName (block.get "level"))
          [("className", "mb-4 mt-6 font-bold "
            ++ getHeadingClass (headingLevelNum (block.get "level")))] ns)
  | .list =>
      match block.get "children" with
      | some (.arr xs) =>
          match renderItemsGo f xs with
          | none => none
          | some (.error e) => some (.error e)
          | some (.ok ns) =>
              some (.ok (.tag (listTagName (block.get "format"))
                [("className", "mb-4 list-disc")] ns))
      | _ => some (.ok .nothing)
  | .listItem => rguard f (block.get "children") .nothing .frag
  | .link =>
      match block.get "children" with
      | some (.arr xs) =>
          match mapRGo f xs with
          | none => none
          | some (.error e) => some (.error e)
          | some (.ok ns) =>
              match startsHttp (block.get "url") with
              | .error e => some (.error e)
              | .ok isHttp =>
                  some (.ok (.tag "a"
                    (("href", jsToString (jsOr (block.get "url") (.str "#"))) ::
                      (if isHttp then
                        [("target", "_blank"), ("rel", "noopener noreferrer")]
                      else []) ++
                      [("className", "text-purple-400 hover:underline")]) ns))
      | _ => some (.ok .nothing)
  | .bold => rguard f (block.get "children") .nothing (fun ns => .tag "strong" [] ns)
  | .italic => rguard f (block.get "children") .nothing (fun ns => .tag "em" [] ns)
  | .blockquote =>
      rguard f (block.get "children") .nothing
        (fun ns => .tag "blockquote"
          [("className", "border-l-4 border-purple-500 pl-4 my-4 italic")] ns)
  | .code =>
      match block.get "children" with
      | some (.arr xs) =>
          match codeJoin xs with
          | .error e => some (.error e)
          | .ok codeText =>
              some (.ok (.tag "pre"
                [("className", "bg-gray-800 p-4 rounded my-4 overflow-x-auto")]
                [.tag "code"
                  [("className",
                    if truthyOpt (block.get "language") then
                      "language-" ++ jsToString ((block.get "language").getD .null)
                    else "")]
                  [.text codeText]]))
      | _ => some (.ok .nothing)
  | .codeInline =>
      match block.get "children" with
      | some (.arr xs) =>
          match codeJoin xs with
          | .error e => some (.error e)
          | .ok codeText =>
              some (.ok (.tag "code"
                [("className", "bg-gray-800 px-2 py-1 rounded")] [.text codeText]))
      | _ => some (.ok .nothing)
  | .image =>
      some (.ok (.tag "img"
        [("src", jsToString (jsOr (block.get "url") (.str ""))),
         ("alt", jsToString (jsOr (block.get "alt") (.str ""))),
         ("className", "max-w-full h-auto my-4 rounded")] []))
  | .hr => some (.ok (.tag "hr" [("className", "my-6 border-gray-700")] []))
  | .other => rguard f (block.get "children") .nothing .frag

/-- One unfolding of `BlockComponent` with recursive calls abstracted as
`f`: the `!block || typeof block !== "object"` guard, then the branch chain
on `type` (a non-string `type` value matches no comparison and falls to the
default branch). -/
def renderStep (f : Json → Option (Except Unit RNode)) (block : Json) :
    Option (Except Unit RNode) :=
  if !(block.truthy && block.typeofObject) then some (.ok .nothing)
  else
    match block.get "type" with
    | some (.str t) => renderTypedStep f block t
    | _ => rguard f (block.get "children") .nothing .frag

/-- Fuelled recursive model of `BlockComponent`. -/
def renderGo : Nat → Json → Option (Except Unit RNode)
  | 0, _ => none
  | fuel + 1, block => renderStep (renderGo fuel) block

/-- Model of `BlockComponent` (components/BlocksRenderer.tsx): the fuel
`Json.size j` is always sufficient (`renderGo_spec`), so the `getD` default
is never taken. -/
def BlockComponent (j : Json) : Except Unit RNode :=
  (renderGo (Json.size j) j).getD (.error ())

theorem mapRGo_congr {f g : Json → Option (Except Unit RNode)} {xs : List Json}
    (h : ∀ x ∈ xs, f x = g x) : mapRGo f xs = mapRGo g xs := by
  induction xs with
  | nil => rfl
  | cons x xs ih =>
      simp only [mapRGo, h x (List.mem_cons_self x xs),
        ih fun y hy => h y (List.mem_cons_of_mem x hy)]

theorem mapRGo_some {f : Json → Option (Except Unit RNode)} {xs : List Json}
    (h : ∀ x ∈ xs, (f x).isSome) : (mapRGo f xs).isSome := by
  induction xs with
  | nil => simp [mapRGo]
  | cons x xs ih =>
      have hx := h x (List.mem_cons_self x xs)
      have hxs := ih fun y hy => h y (List.mem_cons_of_mem x hy)
      simp only [mapRGo]
      rcases Option.isSome_iff_exists.mp hx with ⟨r, hr⟩
      rcases Option.isSome_iff_exists.mp hxs with ⟨rs, hrs⟩
      rw [hr, hrs]
      cases r <;> cases rs <;> simp

theorem rguard_congr {f g : Json → Option (Except Unit RNode)} {co : Option Json}
    {fallback : RNode} {wrap : List RNode → RNode}
    (h : ∀ xs, co = some (.arr xs) → ∀ x ∈ xs, f x = g x) :
    rguard f co fallback wrap = rguard g co fallback wrap := by
  match co with
  | none => rfl
  | some c =>
      cases c <;> simp only [rguard]
      case arr xs => rw [mapRGo_congr (h xs rfl)]

theorem rguard_some {f : Json → Option (Except Unit RNode)} {co : Option Json}
    {fallback : RNode} {wrap : List RNode → RNode}
    (h : ∀ xs, co = some (.arr xs) → ∀ x ∈ xs, (f x).isSome) :
    (rguard f co fallback wrap).isSome := by
  match co with
  | none => simp [rguard]
  | some c =>
      cases c <;> simp only [rguard] <;> try simp
      case arr xs =>
        rcases Option.isSome_iff_exists.mp (mapRGo_some (h xs rfl)) with ⟨r, hr⟩
        rw [hr]; cases r <;> simp

theorem renderListItem_congr {f g : Json → Option (Except Unit RNode)} {item : Json}
    (h : ∀ ic ys, item.getE "children" = .ok ic → ic = some (.arr ys) →
      ∀ y ∈ ys, f y = g y) :
    renderListItem f item = renderListItem g item := by
  unfold renderListItem
  cases hic : item.getE "children" with
  | error e => rfl
  | ok ic =>
      match ic with
      | none => rfl
      | some c =>
          cases c <;> dsimp only
          case arr ys => rw [mapRGo_congr (h (some (.arr ys)) ys hic rfl)]

theorem renderListItem_some {f : Json → Option (Except Unit RNode)} {item : Json}
    (h : ∀ ic ys, item.getE "children" = .ok ic → ic = some (.arr ys) →
      ∀ y ∈ ys, (f y).isSome) :
    (renderListItem f item).isSome := by
  unfold renderListItem
  cases hic : item.getE "children" with
  | error e => simp
  | ok ic =>
      match ic with
      | none => simp
      | some c =>
          cases c <;> dsimp only
          case arr ys =>
            rcases Option.isSome_iff_exists.mp
              (mapRGo_some (h (some (.arr ys)) ys hic rfl)) with ⟨r, hr⟩
            rw [if_pos (show (Json.arr ys).truthy = true from rfl), hr]
            cases r <;> simp
          all_goals split <;> first | simp | (split <;> simp)

theorem renderItemsGo_congr {f g : Json → Option (Except Unit RNode)}
    {xs : List Json}
    (h : ∀ item ∈ xs, renderListItem f item = renderListItem g item) :
    renderItemsGo f xs = renderItemsGo g xs := by
  induction xs with
  | nil => rfl
  | cons item rest ih =>
      simp only [renderItemsGo, h item (List.mem_cons_self item rest),
        ih fun y hy => h y (List.mem_cons_of_mem item hy)]

theorem renderItemsGo_some {f : Json → Option (Except Unit RNode)} {xs : List Json}
    (h : ∀ item ∈ xs, (renderListItem f item).isSome) :
    (renderItemsGo f xs).isSome := by
  induction xs with
  | nil => simp [renderItemsGo]
  | cons item rest ih =>
      simp only [renderItemsGo]
      rcases Option.isSome_iff_exists.mp (h item (List.mem_cons_self item rest))
        with ⟨r, hr⟩
      rcases Option.isSome_iff_exists.mp
        (ih fun y hy => h y (List.mem_cons_of_mem item hy)) with ⟨rs, hrs⟩
      rw [hr, hrs]
      cases r <;> cases rs <;> simp

theorem renderStep_congr {f g : Json → Option (Except Unit RNode)} {block : Json}
    (h : ∀ c, Json.size c < Json.size block → f c = g c) :
    renderStep f block = renderStep g block := by
  have hmem : ∀ xs, block.get "children" = some (.arr xs) → ∀ x ∈ xs, f x = g x := by
    intro xs hk x hx
    exact h x (lt_trans (size_lt_of_mem_arr hx) (size_lt_of_get hk))
  have hitem : ∀ xs, block.get "children" = some (.arr xs) → ∀ item ∈ xs,
      renderListItem f item = renderListItem g item := by
    intro xs hk item hit
    apply renderListItem_congr
    intro ic ys hic hys y hy
    subst hys
    have h1 : Json.size y < Json.size (Json.arr ys) := size_lt_of_mem_arr hy
    have h2 : Json.size (Json.arr ys) < Json.size item := size_lt_of_getE hic
    have h3 : Json.size item < Json.size (Json.arr xs) := size_lt_of_mem_arr hit
    have h4 : Json.size (Json.arr xs) < Json.size block := size_lt_of_get hk
    exact h y (by omega)
  have eg : ∀ fb wrap, rguard f (block.get "children") fb wrap
      = rguard g (block.get "children") fb wrap := fun _ _ => rguard_congr hmem
  have emap : ∀ xs, block.get "children" = some (.arr xs) →
      mapRGo f xs = mapRGo g xs := fun xs hk => mapRGo_congr (hmem xs hk)
  have eitems : ∀ xs, block.get "children" = some (.arr xs) →
      renderItemsGo f xs = renderItemsGo g xs :=
    fun xs hk => renderItemsGo_congr (hitem xs hk)
  unfold renderStep
  split
  · rfl
  · split
    · rename_i t _
      unfold renderTypedStep
      cases classifyRender t <;> dsimp only
      case list =>
          cases hc : block.get "children" with
          | none => rfl
          | some c =>
              cases c <;> dsimp only
              case arr xs => rw [eitems xs hc]
      case link =>
          cases hc : block.get "children" with
          | none => rfl
          | some c =>
              cases c <;> dsimp only
              case arr xs => rw [emap xs hc]
      all_goals first | rfl | rw [eg]
    · rw [eg]

theorem renderStep_some {f : Json → Option (Except Unit RNode)} {block : Json}
    (h : ∀ c, Json.size c < Json.size block → (f c).isSome) :
    (renderStep f block).isSome := by
  have hmem : ∀ xs, block.get "children" = some (.arr xs) → ∀ x ∈ xs, (f x).isSome := by
    intro xs hk x hx
    exact h x (lt_trans (size_lt_of_mem_arr hx) (size_lt_of_get hk))
  have hitem : ∀ xs, block.get "children" = some (.arr xs) → ∀ item ∈ xs,
      (renderListItem f item).isSome := by
    intro xs hk item hit
    apply renderListItem_some
    intro ic ys hic hys y hy
    subst hys
    have h1 : Json.size y < Json.size (Json.arr ys) := size_lt_of_mem_arr hy
    have h2 : Json.size (Json.arr ys) < Json.size item := size_lt_of_getE hic
    have h3 : Json.size item < Json.size (Json.arr xs) := size_lt_of_mem_arr hit
    have h4 : Json.size (Json.arr xs) < Json.size block := size_lt_of_get hk
    exact h y (by omega)
  have sg : ∀ fb wrap, (rguard f (block.get "children") fb wrap).isSome = true :=
    fun _ _ => rguard_some hmem
  unfold renderStep
  split
  · simp
  · split
    · rename_i t _
      unfold renderTypedStep
      cases classifyRender t <;> dsimp only
      case text => split <;> simp
      case list =>
          cases hc : block.get "children" with
          | none => simp
          | some c =>
              cases c <;> dsimp only <;> try simp
              case arr xs =>
                rcases Option.isSome_iff_exists.mp
                  (renderItemsGo_some (hitem xs hc)) with ⟨r, hr⟩
                rw [hr]; cases r <;> simp
      case link =>
          cases hc : block.get "children" with
          | none => simp
          | some c =>
              cases c <;> dsimp only <;> try simp
              case arr xs =>
                rcases Option.isSome_iff_exists.mp
                  (mapRGo_some (hmem xs hc)) with ⟨r, hr⟩
                rw [hr]
                cases r with
                | error e => simp
                | ok ns =>
                    dsimp only
                    split <;> simp
      case code =>
          cases hc : block.get "children" with
          | none => simp
          | some c =>
              cases c <;> dsimp only <;> try simp
              case arr xs => split <;> simp
      case codeInline =>
          cases hc : block.get "children" with
          | none => simp
          | some c =>
              cases c <;> dsimp only <;> try simp
              case arr xs => split <;> simp
      all_goals first | simp | exact sg _ _
    · exact sg _ _

theorem renderGo_spec : ∀ (fuel : Nat) (j : Json), Json.size j ≤ fuel →
    renderGo fuel j = renderGo (Json.size j) j ∧ (renderGo fuel j).isSome := by
  intro fuel
  induction fuel using Nat.strong_induction_on with
  | _ fuel ih =>
      intro j hle
      have hpos := Json.size_pos j
      cases fuel with
      | zero => omega
      | succ fm =>
          obtain ⟨m, hm⟩ : ∃ m, Json.size j = m + 1 := ⟨Json.size j - 1, by omega⟩
          have hcong : ∀ c, Json.size c < Json.size j → renderGo fm c = renderGo m c := by
            intro c hc
            have e1 := (ih fm (Nat.lt_succ_self fm) c (by omega)).1
            have e2 := (ih m (by omega) c (by omega)).1
            rw [e1, e2]
          have hsome : ∀ c, Json.size c < Json.size j → (renderGo fm c).isSome := by
            intro c hc
            exact (ih fm (Nat.lt_succ_self fm) c (by omega)).2
          constructor
          · show renderStep (renderGo fm) j = renderGo (Json.size j) j
            rw [hm]
            show renderStep (renderGo fm) j = renderStep (renderGo m) j
            exact renderStep_congr hcong
          · show (renderStep (renderGo fm) j).isSome
            exact renderStep_some hsome

theorem renderGo_total (j : Json) :
    renderGo (Json.size j) j = some (BlockComponent j) := by
  have h := renderGo_spec (Json.size j) j le_rfl
  rcases Option.isSome_iff_exists.mp h.2 with ⟨r, hr⟩
  simp [BlockComponent, hr]

theorem renderGo_eq {fuel : Nat} (j : Json) (h : Json.size j ≤ fuel) :
    renderGo fuel j = some (BlockComponent j) := by
  rw [(renderGo_spec fuel j h).1, renderGo_total]

/-- Recursion-closed form of the renderer. -/
theorem renderStep_render (j : Json) :
    renderStep (fun c => some (BlockComponent c)) j = some (BlockComponent j) := by
  have hpos := Json.size_pos j
  have h1 : renderStep (fun c => some (BlockComponent c)) j
      = renderStep (renderGo (Json.size j - 1)) j :=
    renderStep_congr fun c hc => (renderGo_eq c (by omega)).symm
  have h2 : renderStep (renderGo (Json.size j - 1)) j = renderGo (Json.size j) j := by
    have : Json.size j = (Json.size j - 1) + 1 := by omega
    rw [this]
    rfl
  rw [h1, h2, renderGo_total]

/-!
Model of the CMS API client (src/lib/api.ts).  Network requests are
abstracted by an environment of request functions returning either the
parsed response body or an axios error carrying the optional HTTP response
(status and data) and a message.  URLs are built by the same string
interpolation as the source, so request routing is observable.
-/

/-- Assignment to an object property: replace in place or append. -/
def upsert : List (String × Json) → String → Json → List (String × Json)
  | [], k, v => [(k, v)]
  | (k0, v0) :: rest, k, v =>
      if k0 = k then (k0, v) :: rest else (k0, v0) :: upsert rest k v

/-- Conditional assignment used for literal properties whose value may be
`undefined` (`{k: undefined}` is observationally the absent property for
every read this code performs, so it is omitted). -/
def setOpt (fs : List (String × Json)) (k : String) : Option Json → List (String × Json)
  | some v => upsert fs k v
  | none => fs

/-- Own enumerable properties contributed by an object spread `{...x}`:
objects spread their fields, arrays and strings their indexed elements,
primitives nothing. -/
def spreadFields : Json → List (String × Json)
  | .obj fs => fs
  | .arr xs => xs.enum.map fun p => (toString p.1, p.2)
  | .str s => s.data.enum.map fun p => (toString p.1, .str (String.mk [p.2]))
  | _ => []

/-- Sequential object-literal construction: fold property writes left to
right (later keys override earlier ones, as in JavaScript). -/
def foldFields (start : List (String × Json)) (entries : List (String × Json)) :
    List (String × Json) :=
  entries.foldl (fun acc kv => upsert acc kv.1 kv.2) start

/-- Optional chaining `x?.k` on a possibly-undefined receiver. -/
def optChainO (o : Option Json) (k : String) : Option Json :=
  match o with
  | none => none
  | some v => v.getOpt k

/-- Model of `normalizePost` (src/lib/api.ts, lines 11-27), parameterized
by the external `react-slugify` function (`slugifyFn`, applied to the raw
`title` value).  A `null` post throws on `post.attributes` (`Except`
error); every other value goes through the four normalization steps. -/
def normalizePost (slugifyFn : Json → String) (post : Json) : Except Unit Json :=
  match post with
  | .null => .error ()
  | _ =>
    let base : List (String × Json) :=
      if truthyOpt (post.get "attributes") then
        foldFields
          (setOpt (setOpt [] "id" (post.get "id")) "documentId" (post.get "documentId"))
          (spreadFields ((post.get "attributes").getD .null))
      else
        setOpt (foldFields [] (spreadFields post)) "documentId" (post.get "documentId")
    let afterCover : List (String × Json) :=
      match lookupField base "cover" with
      | some (.arr (c :: _)) => upsert base "cover" c
      | _ => base
    let afterSlug : List (String × Json) :=
      if !truthyOpt (lookupField afterCover "slug")
          ∧ truthyOpt (lookupField afterCover "title") then
        upsert afterCover "slug"
          (.str (slugifyFn ((lookupField afterCover "title").getD .null)))
      else afterCover
    let afterContent : List (String × Json) :=
      match lookupField afterSlug "content" with
      | some (.obj cfs) =>
          match lookupField cfs "type", lookupField cfs "content" with
          | some (.str "doc"), some (.arr inner) =>
              upsert afterSlug "content" (.arr inner)
          | _, _ => afterSlug
      | _ => afterSlug
    .ok (.obj afterContent)

/-- Model of an axios rejection: the optional HTTP response (status and
body) and the error message. -/
structure AxError where
  response : Option (Int × Json)
  message : String

/-- Request environment for the API client: each method maps a URL (and
body, for writes) to a parsed response body or an axios error.
Authorization headers do not change routing and are not modelled. -/
structure Env where
  get : String → Except AxError Json
  post : String → Json → Except AxError Json
  put : String → Json → Except AxError Json
  delete : String → Except AxError Unit
  pageLimit : String

/-- Test for the regex `^[a-z0-9]+$`. -/
def isLowerAlnum (s : String) : Bool :=
  s != "" && s.data.all fun c => c.isLower || c.isDigit

/-- Test for the regex `^\d+$`. -/
def isAllDigits (s : String) : Bool :=
  s != "" && s.data.all Char.isDigit

/-- URL of the documentId lookup in `getPostBySlug`. -/
def docIdUrl (s : String) : String :=
  "api/blogs?filters[documentId][$eq]=" ++ s ++ "&populate=*"

/-- URL of the slug lookup in `getPostBySlug`. -/
def slugUrl (s : String) : String :=
  "api/blogs?filters[slug][$eq]=" ++ s ++ "&populate=*"

/-- URL of the numeric id lookup in `getPostBySlug`. -/
def idUrl (s : String) : String :=
  "api/blogs?filters[id][$eq]=" ++ s ++ "&populate=*"

/-- Test `res.data?.data?.length > 0` on a response body (`undefined > 0`
is false; only arrays and strings have a `length`). -/
def lenPos (body : Json) : Bool :=
  match optChainO (some body) "data" with
  | some (.arr xs) => !xs.isEmpty
  | some (.str s) => s != ""
  | _ => false

/-- The element `res.data.data[0]` (only evaluated after `lenPos`). -/
def index0 (body : Json) : Json :=
  match body.getOpt "data" with
  | some (.arr (x :: _)) => x
  | some (.str s) =>
      match s.data with
      | c :: _ => .str (String.mk [c])
      | [] => .null
  | _ => .null

/-- Normalization of a found post inside `getPostBySlug`'s try block: a
`TypeError` thrown by `normalizePost` is caught by the surrounding catch
and surfaces as "Server error". -/
def normFound (sf : Json → String) (raw : Json) : Except String Json :=
  match normalizePost sf raw with
  | .error _ => .error "Server error"
  | .ok p => .ok p

/-- Third lookup step of `getPostBySlug` (numeric id), then the final
`throw new Error("Post not found.")`. -/
def getPostStep3 (sf : Json → String) (env : Env) (s : String) : Except String Json :=
  if isAllDigits s then
    match env.get (idUrl s) with
    | .error _ => .error "Server error"
    | .ok body =>
        if lenPos body then normFound sf (index0 body)
        else .error "Post not found."
  else .error "Post not found."

/-- Second lookup step of `getPostBySlug` (slug), guarded by
`slugOrId !== "null" && !/^\d+$/.test(slugOrId)`. -/
def getPostStep2 (sf : Json → String) (env : Env) (s : String) : Except String Json :=
  if s != "null" && !isAllDigits s then
    match env.get (slugUrl s) with
    | .error _ => .error "Server error"
    | .ok body =>
        if lenPos body then normFound sf (index0 body)
        else getPostStep3 sf env s
  else getPostStep3 sf env s

/-- Model of `getPostBySlug` (src/lib/api.ts, lines 49-68): documentId,
then slug, then numeric id, first non-empty result normalized; otherwise
"Post not found."; any request failure or thrown `TypeError` becomes
"Server error". -/
def getPostBySlug (sf : Json → String) (env : Env) (s : String) : Except String Json :=
  if s != "null" && isLowerAlnum s && !isAllDigits s then
    match env.get (docIdUrl s) with
    | .error _ => .error "Server error"
    | .ok body =>
        if lenPos body then normFound sf (index0 body)
        else getPostStep2 sf env s
  else getPostStep2 sf env s

/-- Second step of the procedure exactly as claim C3 words it: the slug
filter is tried whenever the argument is not all digits (the claim does not
exempt the literal string "null" here). -/
def getPostClaimStep2 (sf : Json → String) (env : Env) (s : String) : Except String Json :=
  if !isAllDigits s then
    match env.get (slugUrl s) with
    | .error _ => .error "Server error"
    | .ok body =>
        if lenPos body then normFound sf (index0 body)
        else getPostStep3 sf env s
  else getPostStep3 sf env s

/-- Resolution procedure exactly as claim C3 words it. -/
def getPostBySlugClaim (sf : Json → String) (env : Env) (s : String) : Except String Json :=
  if s != "null" && isLowerAlnum s && !isAllDigits s then
    match env.get (docIdUrl s) with
    | .error _ => .error "Server error"
    | .ok body =>
        if lenPos body then normFound sf (index0 body)
        else getPostClaimStep2 sf env s
  else getPostClaimStep2 sf env s

/-- Resolution procedure as amended: like the claim, but the slug step is
additionally skipped for the literal argument "null" (as the code's
`slugOrId !== "null"` guard does). -/
def getPostBySlugAmendedSpec (sf : Json → String) (env : Env) (s : String) :
    Except String Json :=
  if s != "null" && isLowerAlnum s && !isAllDigits s then
    match env.get (docIdUrl s) with
    | .error _ => .error "Server error"
    | .ok body =>
        if lenPos body then normFound sf (index0 body)
        else if s != "null" && !isAllDigits s then
          match env.get (slugUrl s) with
          | .error _ => .error "Server error"
          | .ok body2 =>
              if lenPos body2 then normFound sf (index0 body2)
              else getPostStep3 sf env s
        else getPostStep3 sf env s
  else if s != "null" && !isAllDigits s then
    match env.get (slugUrl s) with
    | .error _ => .error "Server error"
    | .ok body2 =>
        if lenPos body2 then normFound sf (index0 body2)
        else getPostStep3 sf env s
  else getPostStep3 sf env s

/-- Per-post normalization inside `getAllPosts` (a thrown `TypeError` on
any element propagates to the surrounding catch). -/
def mapNorm (sf : Json → String) : List Json → Except Unit (List Json)
  | [] => .ok []
  | p :: ps =>
      match normalizePost sf p with
      | .error e => .error e
      | .ok n =>
          match mapNorm sf ps with
          | .error e => .error e
          | .ok ns => .ok (n :: ns)

/-- Default pagination object of `getAllPosts`. -/
def defaultPagination : Json :=
  .obj [("page", .num 1), ("pageCount", .num 1), ("pageSize", .num 10), ("total", .num 0)]

/-- URL built by `getAllPosts`. -/
def allPostsUrl (env : Env) (page : Int) (searchQuery : String) : String :=
  "api/blogs?populate=*&pagination[page]=" ++ toString page
    ++ "&pagination[pageSize]=" ++ env.pageLimit
    ++ (if searchQuery != "" then "&filters[title][$containsi]=" ++ searchQuery else "")

/-- Model of `getAllPosts` (src/lib/api.ts, lines 29-47): fetch, normalize
`(response.data.data || [])`, return posts plus
`(response.data.meta?.pagination || default)`; every failure inside the
try (request error, `response.data.data` access on a null body, `.map` on a
truthy non-array, a `TypeError` in `normalizePost`) becomes the single
generic "Server error". -/
def getAllPosts (sf : Json → String) (env : Env) (page : Int) (searchQuery : String) :
    Except String (List Json × Json) :=
  match env.get (allPostsUrl env page searchQuery) with
  | .error _ => .error "Server error"
  | .ok body =>
      match body.getE "data" with
      | .error _ => .error "Server error"
      | .ok d =>
          match jsOr d (.arr []) with
          | .arr xs =>
              match mapNorm sf xs with
              | .error _ => .error "Server error"
              | .ok posts =>
                  .ok (posts,
                    jsOr (optChainO (body.get "meta") "pagination") defaultPagination)
          | _ => .error "Server error"

/-- Normalized vote record (`id` may be absent on malformed data). -/
structure NormVote where
  id : Option Json
  value : Int

/-- Nullish selection `a ?? b` where the fallback is a value. -/
def coalesceVal (a : Option Json) (b : Json) : Json :=
  match a with
  | none => b
  | some .null => b
  | some v => v

/-- Model of `normalizeVote` (src/lib/api.ts, lines 112-117):
`attrs = raw?.attributes ?? raw`, `value = attrs?.value ?? raw?.value`,
result value `-1` exactly when the extracted value is the number `-1`,
otherwise `1`. -/
def normalizeVote (raw : Json) : NormVote :=
  let attrs : Json := coalesceVal (raw.getOpt "attributes") raw
  let id : Option Json := jsCoalesce (raw.getOpt "id") (attrs.getOpt "id")
  let value : Option Json := jsCoalesce (attrs.getOpt "value") (raw.getOpt "value")
  { id := id
    value :=
      match value with
      | some (.num n) => if n = -1 then -1 else 1
      | _ => 1 }

/-- URL built by `getVotesByBlog`. -/
def votesUrl (blogId : Int) : String :=
  "api/votes?filters[blog][id][$eq]=" ++ toString blogId

/-- Model of `getVotesByBlog` (src/lib/api.ts, lines 120-133): the raw list
`response.data?.data ?? response.data ?? []`, kept only when it is an
array, mapped through `normalizeVote`; any request failure returns the
neutral `[]`. -/
def getVotesByBlog (env : Env) (blogId : Int) : List NormVote :=
  match env.get (votesUrl blogId) with
  | .error _ => []
  | .ok body =>
      match coalesceVal (jsCoalesce (optChainO (some body) "data") (some body)) (.arr []) with
      | .arr xs => xs.map normalizeVote
      | _ => []

/-- URL built by `getUserVote`. -/
def userVoteUrl (blogId userId : Int) : String :=
  "api/votes?filters[blog][id][$eq]=" ++ toString blogId
    ++ "&filters[users_permissions_user][id][$eq]=" ++ toString userId

/-- Model of `getUserVote` (src/lib/api.ts): first vote of the filtered
list, normalized; `null` when the list is empty or the request fails. -/
def getUserVote (env : Env) (blogId userId : Int) : Option NormVote :=
  match env.get (userVoteUrl blogId userId) with
  | .error _ => none
  | .ok body =>
      match coalesceVal (jsCoalesce (optChainO (some body) "data") (some body)) (.arr []) with
      | .arr [] => none
      | .arr (v :: _) => some (normalizeVote v)
      | _ => none

/-- Model of `castVote` (src/lib/api.ts): POST the vote, normalize
`response.data?.data ?? response.data`; no try/catch, so a request failure
propagates. -/
def castVote (env : Env) (blogId : Int) (value : Int) : Except AxError NormVote :=
  match env.post "api/votes"
      (.obj [("data", .obj [("blog", .num blogId), ("value", .num value)])]) with
  | .error e => .error e
  | .ok body =>
      .ok (normalizeVote (coalesceVal (optChainO (some body) "data") body))

/-- Model of `updateVote` (src/lib/api.ts): PUT the new value, normalize
the response; no try/catch. -/
def updateVote (env : Env) (voteId : Int) (value : Int) : Except AxError NormVote :=
  match env.put ("api/votes/" ++ toString voteId)
      (.obj [("data", .obj [("value", .num value)])]) with
  | .error e => .error e
  | .ok body =>
      .ok (normalizeVote (coalesceVal (optChainO (some body) "data") body))

/-- Model of `stringToStrapiBlocks` (src/lib/api.ts, lines 196-206): split
on blank-line runs, trim, drop empty paragraphs, and build one paragraph
block per part whose single text child has inner newlines replaced by
spaces (the `str == null || typeof str !== "string"` guard is satisfied by
the `String` input type). -/
def stringToStrapiBlocks (s : String) : Json :=
  .arr ((((splitBlanks s).map jsTrim).filter fun p => p != "").map fun p =>
    .obj [("type", .str "paragraph"),
          ("children", .arr [.obj [("type", .str "text"),
                                   ("text", .str (replaceNl p))]])])

/-- The `Bad Request` message built by `createPost`'s 400 branch. -/
def badRequestMsg (d : Json) : String :=
  "Bad Request: " ++ jsToString (jsOr (optChainO (d.getOpt "error") "message")
    (.str (jsonStringify d)))

/-- Model of `createPost` (src/lib/api.ts, lines 208-247): build the
payload (content converted through `stringToStrapiBlocks` when it is a
string, categories wrapped as `{set: ...}` when `categories?.length` is
truthy), POST it, and in the catch distinguish HTTP 401, 403 and 400 with
specific messages before the generic fallback
`error.message || "Failed to create post"`.  (`postData` is an object for
every caller; the Content-Type and Authorization headers do not affect the
modelled behaviour.)  `createPayloadBase` is the literal
`{title, description, slug}`. -/
def createPayloadBase (postData : Json) : List (String × Json) :=
  setOpt (setOpt (setOpt [] "title" (postData.get "title"))
    "description" (postData.get "description")) "slug" (postData.get "slug")

/-- Payload construction of `createPost`: content converted through
`stringToStrapiBlocks` when it is a string, categories wrapped as
`{set: ...}` when `categories?.length` is truthy. -/
def createPayload (postData : Json) : List (String × Json) :=
  let p1 :=
    match postData.get "content" with
    | some (.str s) => upsert (createPayloadBase postData) "content" (stringToStrapiBlocks s)
    | some v => upsert (createPayloadBase postData) "content" v
    | none => createPayloadBase postData
  match postData.get "categories" with
  | some (.arr xs) =>
      if !xs.isEmpty then upsert p1 "categories" (.obj [("set", .arr xs)]) else p1
  | some (.str cs) =>
      if cs != "" then upsert p1 "categories" (.obj [("set", .str cs)]) else p1
  | _ => p1

def createPost (env : Env) (postData : Json) : Except String Json :=
  match env.post "api/blogs" (.obj [("data", .obj (createPayload postData))]) with
  | .ok body => .ok (coalesceVal (optChainO (some body) "data") body)
  | .error e =>
      match e.response with
      | some (status, d) =>
          if status = 401 then .error "Unauthorized - Please log in to create posts"
          else if status = 403 then
            .error "Forbidden - You don\x27t have permission to create posts. Check your role in Strapi."
          else if status = 400 then .error (badRequestMsg d)
          else .error (if e.message != "" then e.message else "Failed to create post")
      | none => .error (if e.message != "" then e.message else "Failed to create post")

/-!
Model of the login API route (src/app/api/auth/login/route.ts) and of the
vote buttons' optimistic update (src/components/VoteButtons.tsx).
-/

/-- Model of a `fetch` response: `ok`, `status`, and the result of
`.json()` (which can reject). -/
structure FetchResp where
  ok : Bool
  status : Int
  jsonBody : Except Unit Json

/-- Request environment of the login route: the parsed request body
(`req.json()` can throw), the CMS login call, and the user fetch performed
with the returned JWT. -/
structure LoginEnv where
  reqJson : Except Unit Json
  authFetch : Json → Except Unit FetchResp
  userFetch : Option Json → Except Unit FetchResp

/-- Cookie set on a `NextResponse` (`value` is the raw `data.jwt`). -/
structure CookieRec where
  name : String
  value : Option Json
  httpOnly : Bool
  sameSite : String
  maxAge : Int
  path : String

/-- Response produced by the route handler. -/
structure NextResp where
  status : Int
  body : Json
  cookies : List CookieRec

/-- The catch-all 500 response of the login route. -/
def loginErr500 : NextResp :=
  { status := 500, body := .obj [("error", .str "Internal server error")], cookies := [] }

/-- Model of the login route's `POST` handler
(src/app/api/auth/login/route.ts, lines 3-37). -/
def loginPOST (env : LoginEnv) : NextResp :=
  match env.reqJson with
  | .error _ => loginErr500
  | .ok body =>
      match env.authFetch body with
      | .error _ => loginErr500
      | .ok strapiRes =>
          match strapiRes.jsonBody with
          | .error _ => loginErr500
          | .ok data =>
              if !strapiRes.ok then
                match data.getE "error" with
                | .error _ => loginErr500
                | .ok errOpt =>
                    { status := strapiRes.status,
                      body := .obj [("error",
                        jsOr (optChainO errOpt "message") (.str "Login failed"))],
                      cookies := [] }
              else
                match data.getE "jwt" with
                | .error _ => loginErr500
                | .ok jwtOpt =>
                    match env.userFetch jwtOpt with
                    | .error _ => loginErr500
                    | .ok userRes =>
                        match userRes.jsonBody with
                        | .error _ => loginErr500
                        | .ok user =>
                            { status := 200,
                              body := .obj (setOpt (upsert [] "user" user) "token" jwtOpt),
                              cookies := [⟨"auth-token", jwtOpt, true, "lax",
                                60 * 60 * 24, "/"⟩] }

/-- The user's recorded vote in the component state. -/
structure UserVote where
  id : Int
  value : Int

/-- Local state of `VoteButtons`: the displayed score and the user's
current vote. -/
structure VoteState where
  score : Int
  userVote : Option UserVote

/-- Contribution of the user's vote to the server-side sum. -/
def voteContrib : Option UserVote → Int
  | none => 0
  | some v => v.value

/-- Model of `handleVote` (src/components/VoteButtons.tsx, lines 42-68).
`loggedIn` is the `user && token` guard; `serverOk` abstracts the awaited
request (when it rejects the catch shows a toast and no state is updated);
`newVoteId` is the id of the vote created by `castVote` in the new-vote
branch. -/
def handleVote (loggedIn serverOk : Bool) (st : VoteState) (value : Int)
    (newVoteId : Int) : VoteState :=
  if !loggedIn then st
  else if !serverOk then st
  else
    match st.userVote with
    | some uv =>
        if uv.value = value then
          { score := st.score - value, userVote := none }
        else
          { score := st.score - uv.value + value,
            userVote := some { uv with value := value } }
    | none =>
        { score := st.score + value,
          userVote := some { id := newVoteId, value := value } }

/-!
Specification-side definitions.  These are written from the words of the
claims (not from the source) and compared with the source-derived
definitions above; each is named `...Spec`.
-/

/-- Written from the words of the AMENDED claim C4: "a post with a truthy
attributes property is flattened to {id, documentId, ...attributes}; a
non-empty cover array is replaced by its first element; a falsy slug
(absent, empty, or otherwise falsy — the code tests `!normalized.slug`,
not absence) is replaced by the slugified title when the title is truthy
(not merely present); and a content value that is an object of shape
{type: "doc", content: <array>} is replaced by that inner array; all other
fields are passed through unchanged."  The ORIGINAL claim's presence-based
conditions ("an attributes wrapper", "a missing slug", "when a title is
present") differ observably from these truthiness tests — see
`C4_counterexample`, where a present-but-empty slug is overwritten. -/
def normalizePostSpec (slugifyFn : Json → String) (post : Json) : Json :=
  let flattened : List (String × Json) :=
    match post.get "attributes" with
    | some a =>
        if a.truthy then
          foldFields
            (setOpt (setOpt [] "id" (post.get "id")) "documentId" (post.get "documentId"))
            (spreadFields a)
        else setOpt (foldFields [] (spreadFields post)) "documentId" (post.get "documentId")
    | none => setOpt (foldFields [] (spreadFields post)) "documentId" (post.get "documentId")
  let coverFixed : List (String × Json) :=
    match lookupField flattened "cover" with
    | some (.arr (first :: _)) => upsert flattened "cover" first
    | _ => flattened
  let slugFixed : List (String × Json) :=
    match lookupField coverFixed "slug", lookupField coverFixed "title" with
    | slugVal, some title =>
        if !truthyOpt slugVal && title.truthy then
          upsert coverFixed "slug" (.str (slugifyFn title))
        else coverFixed
    | _, none => coverFixed
  let contentFixed : List (String × Json) :=
    match lookupField slugFixed "content" with
    | some (.obj cfs) =>
        match lookupField cfs "type", lookupField cfs "content" with
        | some (.str dt), some (.arr inner) =>
            if dt = "doc" then upsert slugFixed "content" (.arr inner) else slugFixed
        | _, _ => slugFixed
    | _ => slugFixed
  .obj contentFixed

/-!
Claim theorems.
-/

/-- C2: the vote buttons' optimistic update preserves the invariant that
the displayed score equals the sum of all vote values: writing the server
sum as (other users' contributions) + (this user's current vote), every
branch of `handleVote` — removing the same vote, changing the vote, and
casting a new vote — updates `score` so that it again equals the other
users' contributions plus the updated user vote. -/
theorem C2_vote_optimistic_invariant (othersSum : Int) (st : VoteState)
    (value newVoteId : Int) (loggedIn serverOk : Bool)
    (h : st.score = othersSum + voteContrib st.userVote) :
    (handleVote loggedIn serverOk st value newVoteId).score
      = othersSum
        + voteContrib (handleVote loggedIn serverOk st value newVoteId).userVote := by
  cases loggedIn with
  | false => simpa [handleVote] using h
  | true =>
      cases serverOk with
      | false => simpa [handleVote] using h
      | true =>
          cases huv : st.userVote with
          | none =>
              rw [huv] at h
              simp only [voteContrib] at h
              simp [handleVote, huv, voteContrib]
              omega
          | some uv =>
              rw [huv] at h
              simp only [voteContrib] at h
              by_cases hv : uv.value = value
              · simp [handleVote, huv, hv, voteContrib]
                omega
              · simp [handleVote, huv, hv, voteContrib]
                omega

/-- C2 witness: removing an existing upvote at a concrete state. -/
theorem C2_vote_optimistic_invariant_witness :
    (3 : Int) = 2 + voteContrib (some ⟨5, 1⟩)
      ∧ (handleVote true true ⟨3, some ⟨5, 1⟩⟩ 1 9).score
        = 2 + voteContrib (handleVote true true ⟨3, some ⟨5, 1⟩⟩ 1 9).userVote :=
  ⟨by decide, C2_vote_optimistic_invariant 2 ⟨3, some ⟨5, 1⟩⟩ 1 9 true true (by decide)⟩

/-- C10: `normalizeVote` maps every raw vote whose extracted value
(`attrs?.value ?? raw?.value`) is not exactly the number `-1` — including
missing, `null`, `0`, strings or objects — to the upvote value `1`, and to
`-1` exactly for `-1`; consequently every vote produced by
`getVotesByBlog`, `getUserVote`, `castVote` and `updateVote` has value `1`
or `-1`, with `1` the default for malformed data. -/
theorem C10_normalizeVote_values :
    (∀ raw : Json, (normalizeVote raw).value = 1 ∨ (normalizeVote raw).value = -1)
    ∧ (∀ raw : Json,
        jsCoalesce ((coalesceVal (raw.getOpt "attributes") raw).getOpt "value")
          (raw.getOpt "value") ≠ some (.num (-1)) →
        (normalizeVote raw).value = 1)
    ∧ (∀ (env : Env) (blogId : Int), ∀ v ∈ getVotesByBlog env blogId,
        v.value = 1 ∨ v.value = -1)
    ∧ (∀ (env : Env) (blogId userId : Int) (v : NormVote),
        getUserVote env blogId userId = some v → v.value = 1 ∨ v.value = -1)
    ∧ (∀ (env : Env) (blogId value : Int) (v : NormVote),
        castVote env blogId value = .ok v → v.value = 1 ∨ v.value = -1)
    ∧ (∀ (env : Env) (voteId value : Int) (v : NormVote),
        updateVote env voteId value = .ok v → v.value = 1 ∨ v.value = -1) := by
  have h1 : ∀ raw : Json, (normalizeVote raw).value = 1 ∨ (normalizeVote raw).value = -1 := by
    intro raw
    unfold normalizeVote
    dsimp only
    split
    · split
      · right; rfl
      · left; rfl
    · left; rfl
  refine ⟨h1, ?_, ?_, ?_, ?_, ?_⟩
  · intro raw hne
    unfold normalizeVote
    dsimp only
    split
    · rename_i n heq
      by_cases hn : n = -1
      · subst hn
        exact absurd heq hne
      · rw [if_neg hn]
    · rfl
  · intro env blogId v hv
    unfold getVotesByBlog at hv
    cases henv : env.get (votesUrl blogId) with
    | error e =>
        rw [henv] at hv
        simp at hv
    | ok body =>
        rw [henv] at hv
        dsimp only at hv
        split at hv
        · rcases List.mem_map.mp hv with ⟨rawv, _, rfl⟩
          exact h1 rawv
        · simp at hv
  · intro env blogId userId v hv
    unfold getUserVote at hv
    cases henv : env.get (userVoteUrl blogId userId) with
    | error e =>
        rw [henv] at hv
        simp at hv
    | ok body =>
        rw [henv] at hv
        dsimp only at hv
        split at hv
        · simp at hv
        · injection hv with hv
          subst hv
          exact h1 _
        · simp at hv
  · intro env blogId value v hv
    unfold castVote at hv
    cases henv : env.post "api/votes"
        (.obj [("data", .obj [("blog", .num blogId), ("value", .num value)])]) with
    | error e =>
        rw [henv] at hv
        simp at hv
    | ok body =>
        rw [henv] at hv
        dsimp only at hv
        injection hv with hv
        subst hv
        exact h1 _
  · intro env voteId value v hv
    unfold updateVote at hv
    cases henv : env.put ("api/votes/" ++ toString voteId)
        (.obj [("data", .obj [("value", .num value)])]) with
    | error e =>
        rw [henv] at hv
        simp at hv
    | ok body =>
        rw [henv] at hv
        dsimp only at hv
        injection hv with hv
        subst hv
        exact h1 _

/-- C10 witness: a raw vote with value `5` (not `-1`) normalizes to `1`. -/
theorem C10_normalizeVote_values_witness :
    jsCoalesce ((coalesceVal ((Json.obj [("value", .num 5)]).getOpt "attributes")
        (.obj [("value", .num 5)])).getOpt "value")
      ((Json.obj [("value", .num 5)]).getOpt "value") ≠ some (.num (-1))
    ∧ (normalizeVote (.obj [("value", .num 5)])).value = 1 := by
  have hne : jsCoalesce ((coalesceVal ((Json.obj [("value", .num 5)]).getOpt "attributes")
        (.obj [("value", .num 5)])).getOpt "value")
      ((Json.obj [("value", .num 5)]).getOpt "value") ≠ some (.num (-1)) := by
    intro h
    rw [show jsCoalesce ((coalesceVal ((Json.obj [("value", .num 5)]).getOpt "attributes")
        (.obj [("value", .num 5)])).getOpt "value")
      ((Json.obj [("value", .num 5)]).getOpt "value") = some (.num 5) from rfl] at h
    injection h with h
    injection h with h
    omega
  exact ⟨hne, C10_normalizeVote_values.2.1 (.obj [("value", .num 5)]) hne⟩

/-- C7: both recursive visitors over the rich-text block tree terminate on
every finite tree, with recursion depth bounded by the tree size: for any
fuel at least `Json.size j`, the fuelled recursions compute the defined
(fuel-free) results of `convertBlockToMarkdown` and `BlockComponent` — in
particular they never exhaust the fuel, since they recurse only on elements
of a block's `children` array, which are structurally smaller subtrees. -/
theorem C7_visitors_terminate (fuel : Nat) (j : Json) (h : Json.size j ≤ fuel) :
    goB fuel j = some (convertBlockToMarkdown j)
      ∧ renderGo fuel j = some (BlockComponent j) :=
  ⟨goB_eq j h, renderGo_eq j h⟩

/-- C7 witness: a concrete paragraph block at fuel 20. -/
theorem C7_visitors_terminate_witness :
    Json.size (Json.obj [("type", .str "paragraph"),
      ("children", .arr [.obj [("type", .str "text"), ("text", .str "hi")]])]) ≤ 20
    ∧ (goB 20 (Json.obj [("type", .str "paragraph"),
        ("children", .arr [.obj [("type", .str "text"), ("text", .str "hi")]])])
      = some (convertBlockToMarkdown (Json.obj [("type", .str "paragraph"),
        ("children", .arr [.obj [("type", .str "text"), ("text", .str "hi")]])]))
      ∧ renderGo 20 (Json.obj [("type", .str "paragraph"),
        ("children", .arr [.obj [("type", .str "text"), ("text", .str "hi")]])])
      = some (BlockComponent (Json.obj [("type", .str "paragraph"),
        ("children", .arr [.obj [("type", .str "text"), ("text", .str "hi")]])]))) :=
  ⟨by decide,
   C7_visitors_terminate 20 (Json.obj [("type", .str "paragraph"),
     ("children", .arr [.obj [("type", .str "text"), ("text", .str "hi")]])]) (by decide)⟩

/-- C8: the login route proxies the CMS JWT auth into a cookie session:
a failed upstream login yields a JSON error body with the upstream status
and sets no cookie; a successful login returns the fetched user and the
JWT and sets an httpOnly "auth-token" cookie holding the JWT with sameSite
lax, path "/" and max age 60*60*24 seconds (24 hours); every exception
(request body parse, either fetch, either `.json()`, property access on a
null body) yields the 500 response with no cookie. -/
theorem C8_login_route :
    (∀ env : LoginEnv, env.reqJson = .error () → loginPOST env = loginErr500)
    ∧ (∀ (env : LoginEnv) (body : Json), env.reqJson = .ok body →
        env.authFetch body = .error () → loginPOST env = loginErr500)
    ∧ (∀ (env : LoginEnv) (body : Json) (sr : FetchResp), env.reqJson = .ok body →
        env.authFetch body = .ok sr → sr.jsonBody = .error () →
        loginPOST env = loginErr500)
    ∧ (∀ (env : LoginEnv) (body data : Json) (sr : FetchResp) (errOpt : Option Json),
        env.reqJson = .ok body → env.authFetch body = .ok sr →
        sr.jsonBody = .ok data → sr.ok = false → data.getE "error" = .ok errOpt →
        loginPOST env =
          { status := sr.status,
            body := .obj [("error",
              jsOr (optChainO errOpt "message") (.str "Login failed"))],
            cookies := [] })
    ∧ (∀ (env : LoginEnv) (body data : Json) (sr : FetchResp) (jwtOpt : Option Json),
        env.reqJson = .ok body → env.authFetch body = .ok sr →
        sr.jsonBody = .ok data → sr.ok = true → data.getE "jwt" = .ok jwtOpt →
        env.userFetch jwtOpt = .error () → loginPOST env = loginErr500)
    ∧ (∀ (env : LoginEnv) (body data user : Json) (sr ur : FetchResp)
        (jwtOpt : Option Json),
        env.reqJson = .ok body → env.authFetch body = .ok sr →
        sr.jsonBody = .ok data → sr.ok = true → data.getE "jwt" = .ok jwtOpt →
        env.userFetch jwtOpt = .ok ur → ur.jsonBody = .ok user →
        loginPOST env =
          { status := 200,
            body := .obj (setOpt (upsert [] "user" user) "token" jwtOpt),
            cookies := [⟨"auth-token", jwtOpt, true, "lax", 60 * 60 * 24, "/"⟩] })
    ∧ loginErr500.status = 500 ∧ loginErr500.cookies = [] := by
  refine ⟨?_, ?_, ?_, ?_, ?_, ?_, rfl, rfl⟩
  · intro env h
    simp [loginPOST, h]
  · intro env body h1 h2
    simp [loginPOST, h1, h2]
  · intro env body sr h1 h2 h3
    simp [loginPOST, h1, h2, h3]
  · intro env body data sr errOpt h1 h2 h3 h4 h5
    simp [loginPOST, h1, h2, h3, h4, h5]
  · intro env body data sr jwtOpt h1 h2 h3 h4 h5 h6
    simp [loginPOST, h1, h2, h3, h4, h5, h6]
  · intro env body data user sr ur jwtOpt h1 h2 h3 h4 h5 h6 h7
    simp [loginPOST, h1, h2, h3, h4, h5, h6, h7]

/-- Concrete login environment for the C8 witness: a successful CMS login
returning JWT "J" and a user fetch returning a user object. -/
def loginEnv0 : LoginEnv :=
  { reqJson := .ok (.obj [("identifier", .str "u"), ("password", .str "p")]),
    authFetch := fun _ => .ok ⟨true, 200, .ok (.obj [("jwt", .str "J")])⟩,
    userFetch := fun _ => .ok ⟨true, 200, .ok (.obj [("username", .str "u")])⟩ }

/-- C8 witness: the success path at a concrete environment. -/
theorem C8_login_route_witness :
    loginEnv0.reqJson = .ok (.obj [("identifier", .str "u"), ("password", .str "p")])
    ∧ loginPOST loginEnv0 =
      { status := 200,
        body := .obj (setOpt (upsert [] "user" (.obj [("username", .str "u")]))
          "token" (some (.str "J"))),
        cookies := [⟨"auth-token", some (.str "J"), true, "lax", 60 * 60 * 24, "/"⟩] } :=
  ⟨rfl,
   C8_login_route.2.2.2.2.2.1 loginEnv0
     (.obj [("identifier", .str "u"), ("password", .str "p")])
     (.obj [("jwt", .str "J")])
     (.obj [("username", .str "u")])
     ⟨true, 200, .ok (.obj [("jwt", .str "J")])⟩
     ⟨true, 200, .ok (.obj [("username", .str "u")])⟩
     (some (.str "J"))
     rfl rfl rfl rfl rfl rfl rfl⟩

/-- Environment whose every request fails with the given HTTP status (used
to exhibit `createPost`'s status-dependent error messages). -/
def errEnv (status : Int) : Env :=
  { get := fun _ => .error ⟨some (status, .null), "Request failed"⟩,
    post := fun _ _ => .error ⟨some (status, .null), "Request failed"⟩,
    put := fun _ _ => .error ⟨some (status, .null), "Request failed"⟩,
    delete := fun _ => .error ⟨some (status, .null), "Request failed"⟩,
    pageLimit := "10" }

/-- C5 counterexample: `createPost` surfaces different errors for HTTP 401
and HTTP 403 request failures, so the CMS wrappers do distinguish failure
causes by status code, contrary to the claim that failure handling never
goes beyond a generic try/catch with a single generic error or neutral
default. -/
theorem C5_counterexample :
    createPost (errEnv 401) (.obj [("title", .str "t")])
      = .error "Unauthorized - Please log in to create posts"
    ∧ createPost (errEnv 403) (.obj [("title", .str "t")])
      = .error "Forbidden - You don\x27t have permission to create posts. Check your role in Strapi."
    ∧ ("Unauthorized - Please log in to create posts" : String)
      ≠ "Forbidden - You don\x27t have permission to create posts. Check your role in Strapi." :=
  ⟨rfl, rfl, by decide⟩

/-- C5 as amended: the read wrappers keep the generic behaviour — every
underlying request failure in `getAllPosts` and `getPostBySlug` surfaces
as the single generic "Server error" (except that an argument for which
`getPostBySlug` performs no lookup at all still reports "Post not
found."), and `getVotesByBlog` returns the neutral `[]` — but `createPost`
distinguishes failure causes by HTTP status: 401, 403 and 400 produce
specific messages, and only other failures fall back to
`error.message || "Failed to create post"`. -/
theorem C5_amended_error_handling :
    (∀ (sf : Json → String) (env : Env) (page : Int) (q : String) (e : AxError),
      env.get (allPostsUrl env page q) = .error e →
      getAllPosts sf env page q = .error "Server error")
    ∧ (∀ (sf : Json → String) (env : Env) (s : String) (e : AxError),
        (∀ url, env.get url = .error e) →
        getPostBySlug sf env s
          = .error (if s = "null" then "Post not found." else "Server error"))
    ∧ (∀ (env : Env) (blogId : Int) (e : AxError),
        env.get (votesUrl blogId) = .error e → getVotesByBlog env blogId = [])
    ∧ (∀ (env : Env) (pd d : Json) (m : String),
        (∀ body, env.post "api/blogs" body = .error ⟨some (401, d), m⟩) →
        createPost env pd = .error "Unauthorized - Please log in to create posts")
    ∧ (∀ (env : Env) (pd d : Json) (m : String),
        (∀ body, env.post "api/blogs" body = .error ⟨some (403, d), m⟩) →
        createPost env pd
          = .error "Forbidden - You don\x27t have permission to create posts. Check your role in Strapi.")
    ∧ (∀ (env : Env) (pd d : Json) (m : String),
        (∀ body, env.post "api/blogs" body = .error ⟨some (400, d), m⟩) →
        createPost env pd = .error (badRequestMsg d))
    ∧ (∀ (env : Env) (pd d : Json) (st : Int) (m : String),
        st ≠ 401 → st ≠ 403 → st ≠ 400 →
        (∀ body, env.post "api/blogs" body = .error ⟨some (st, d), m⟩) →
        createPost env pd
          = .error (if m != "" then m else "Failed to create post"))
    ∧ (∀ (env : Env) (pd : Json) (m : String),
        (∀ body, env.post "api/blogs" body = .error ⟨none, m⟩) →
        createPost env pd
          = .error (if m != "" then m else "Failed to create post")) := by
  refine ⟨?_, ?_, ?_, ?_, ?_, ?_, ?_, ?_⟩
  · intro sf env page q e h
    unfold getAllPosts
    rw [h]
  · intro sf env s e hall
    by_cases hnull : s = "null"
    · subst hnull
      rfl
    · by_cases hdig : isAllDigits s = true
      · have h1 : (s != "null" && isLowerAlnum s && !isAllDigits s) = false := by
          rw [hdig]; simp
        have h2 : (s != "null" && !isAllDigits s) = false := by
          rw [hdig]; simp
        simp only [getPostBySlug, getPostStep2, getPostStep3, h1, h2, hdig,
          hall (idUrl s), Bool.false_eq_true, if_false, if_true]
        simp [hnull]
      · by_cases halnum : isLowerAlnum s = true
        · simp [getPostBySlug, hall _, hnull, hdig, halnum]
        · simp [getPostBySlug, getPostStep2, hall _, hnull, hdig, halnum]
  · intro env blogId e h
    unfold getVotesByBlog
    rw [h]
  · intro env pd d m h
    unfold createPost
    rw [h]
    rfl
  · intro env pd d m h
    unfold createPost
    rw [h]
    rfl
  · intro env pd d m h
    unfold createPost
    rw [h]
    rfl
  · intro env pd d st m h1 h2 h3 h
    unfold createPost
    rw [h]
    simp [h1, h2, h3]
  · intro env pd m h
    unfold createPost
    rw [h]

/-- Stand-in for the external `react-slugify` function in concrete
environments. -/
def sf0 : Json → String := fun _ => "slug"

/-- C5 amended witness: a failing fetch makes `getAllPosts` report the
generic "Server error". -/
theorem C5_amended_error_handling_witness :
    (errEnv 500).get (allPostsUrl (errEnv 500) 1 "")
      = .error ⟨some (500, .null), "Request failed"⟩
    ∧ getAllPosts sf0 (errEnv 500) 1 "" = .error "Server error" :=
  ⟨rfl, C5_amended_error_handling.1 sf0 (errEnv 500) 1 ""
    ⟨some (500, .null), "Request failed"⟩ rfl⟩

/-- Raw post used in the C3 counterexample: its slug is the literal string
"null". -/
def post0 : Json := .obj [("id", .num 1), ("documentId", .str "abc123"),
  ("title", .str "T"), ("slug", .str "null")]

/-- Environment in which the slug lookup for "null" finds `post0` and
every other lookup is empty. -/
def slugNullEnv : Env :=
  { get := fun url => if url = slugUrl "null" then .ok (.obj [("data", .arr [post0])])
      else .ok (.obj [("data", .arr [])]),
    post := fun _ _ => .error ⟨none, ""⟩,
    put := fun _ _ => .error ⟨none, ""⟩,
    delete := fun _ => .error ⟨none, ""⟩,
    pageLimit := "10" }

/-- C3 counterexample: for the argument "null" (which is not all digits),
the claim's procedure tries the slug filter and finds `post0`, but the code
also skips the slug lookup for the literal "null"
(`slugOrId !== "null"` in the second guard) and throws "Post not found.",
so the claimed resolution order is wrong for this input. -/
theorem C3_counterexample :
    getPostBySlug sf0 slugNullEnv "null" = .error "Post not found."
    ∧ getPostBySlugClaim sf0 slugNullEnv "null" = .ok post0
    ∧ (Except.error "Post not found." ≠ (Except.ok post0 : Except String Json)) :=
  ⟨rfl, rfl, fun h => Except.noConfusion h⟩

/-- C3 as amended: `getPostBySlug` resolves in the claimed fixed order —
documentId filter for lowercase-alphanumeric, not-all-digits, non-"null"
arguments; then slug filter when that yielded nothing AND the argument is
not all digits and not the literal "null"; then numeric id filter for
all-digit arguments; first non-empty result normalized and returned, else
"Post not found." — and in particular the argument "null" performs no
lookup at all in any environment. -/
theorem C3_amended_resolution_order :
    (∀ (sf : Json → String) (env : Env) (s : String),
      getPostBySlug sf env s = getPostBySlugAmendedSpec sf env s)
    ∧ (∀ (sf : Json → String) (env : Env),
        getPostBySlug sf env "null" = .error "Post not found.") :=
  ⟨fun _ _ _ => rfl, fun _ _ => rfl⟩

/-- C4, counterexample: the claim says a MISSING slug is derived from the
title, with all other fields passed through unchanged, but the code tests
truthiness (`!normalized.slug`, src/lib/api.ts line 19): the post
`{slug: "", title: "T"}` has a present `slug` property, yet
`normalizePost` overwrites it with the slugified title instead of passing
it through unchanged. -/
theorem C4_counterexample :
    (Json.obj [("slug", Json.str ""), ("title", Json.str "T")]).get "slug"
        = some (Json.str "") ∧
    normalizePost (fun _ => "t-slug")
        (Json.obj [("slug", Json.str ""), ("title", Json.str "T")])
      = .ok (Json.obj [("slug", Json.str "t-slug"), ("title", Json.str "T")]) ∧
    Json.str "t-slug" ≠ Json.str "" :=
  ⟨rfl, rfl, fun hh => by injection hh with h2; exact absurd h2 (by decide)⟩

/-- C4 (amended): `normalizePost` behaves as the amended claim describes —
a post with a truthy `attributes` property is flattened to
`{id, documentId, ...attributes}` (object-literal semantics: spread keys
override the explicit ones); a non-empty `cover` array is replaced by its
first element; a falsy slug is replaced by the slugified title when the
title is truthy; a `content` value of shape
`{type: "doc", content: <array>}` is replaced by the inner array; all
other fields pass through unchanged — stated as agreement with
`normalizePostSpec`, which is written from the amended claim's sentences.
The original claim's presence-based slug/title conditions are refuted by
`C4_counterexample`.  (A `null` post is excluded: property access on it
throws.) -/
theorem C4_normalizePost_spec (sf : Json → String) (post : Json)
    (h : post ≠ .null) :
    normalizePost sf post = .ok (normalizePostSpec sf post) := by
  have hbase :
      (if truthyOpt (post.get "attributes") then
        foldFields
          (setOpt (setOpt [] "id" (post.get "id")) "documentId" (post.get "documentId"))
          (spreadFields ((post.get "attributes").getD .null))
      else
        setOpt (foldFields [] (spreadFields post)) "documentId" (post.get "documentId"))
      = (match post.get "attributes" with
        | some a =>
            if a.truthy then
              foldFields
                (setOpt (setOpt [] "id" (post.get "id"))
                  "documentId" (post.get "documentId"))
                (spreadFields a)
            else setOpt (foldFields [] (spreadFields post))
              "documentId" (post.get "documentId")
        | none => setOpt (foldFields [] (spreadFields post))
            "documentId" (post.get "documentId")) := by
    cases hattr : post.get "attributes" with
    | none => rfl
    | some a =>
        dsimp only
        by_cases ht : a.truthy
        · rw [if_pos (by simp [truthyOpt, ht]), if_pos ht]
          rfl
        · rw [if_neg (by simp [truthyOpt, ht]), if_neg ht]
  have hslug : ∀ c : List (String × Json),
      (if !truthyOpt (lookupField c "slug") ∧ truthyOpt (lookupField c "title") then
        upsert c "slug" (.str (sf ((lookupField c "title").getD .null)))
      else c)
      = (match lookupField c "slug", lookupField c "title" with
        | slugVal, some title =>
            if !truthyOpt slugVal && title.truthy then
              upsert c "slug" (.str (sf title))
            else c
        | _, none => c) := by
    intro c
    cases htitle : lookupField c "title" with
    | none =>
        dsimp only
        rw [if_neg (by simp [truthyOpt])]
    | some title =>
        dsimp only
        by_cases hcond : (!truthyOpt (lookupField c "slug") && title.truthy) = true
        · rw [if_pos ?hp, if_pos hcond]
          · rfl
          · constructor
            · exact (Bool.and_eq_true .. ▸ hcond).1
            · simp [truthyOpt, (Bool.and_eq_true .. ▸ hcond).2]
        · rw [if_neg ?hn, if_neg hcond]
          intro hand
          apply hcond
          simp only [Bool.and_eq_true]
          exact ⟨hand.1, by simpa [truthyOpt] using hand.2⟩
  have hcontent : ∀ c : List (String × Json),
      (match lookupField c "content" with
        | some (.obj cfs) =>
            match lookupField cfs "type", lookupField cfs "content" with
            | some (.str "doc"), some (.arr inner) => upsert c "content" (.arr inner)
            | _, _ => c
        | _ => c)
      = (match lookupField c "content" with
        | some (.obj cfs) =>
            match lookupField cfs "type", lookupField cfs "content" with
            | some (.str dt), some (.arr inner) =>
                if dt = "doc" then upsert c "content" (.arr inner) else c
            | _, _ => c
        | _ => c) := by
    intro c
    cases hct : lookupField c "content" with
    | none => rfl
    | some v =>
        cases v with
        | obj cfs =>
            dsimp only
            cases hty : lookupField cfs "type" with
            | none => rfl
            | some tv =>
                cases tv with
                | str dt =>
                    cases hcc : lookupField cfs "content" with
                    | none =>
                        dsimp only
                        split
                        all_goals
                          first
                          | rfl
                          | (rename_i heq
                             cases heq)
                          | (rename_i heq hin
                             cases hin)
                    | some cv =>
                        cases cv <;> dsimp only
                        case arr inner =>
                            by_cases hd : dt = "doc"
                            · subst hd
                              rw [if_pos rfl]
                              rfl
                            · rw [if_neg hd]
                              split
                              all_goals
                                first
                                | rfl
                                | (rename_i heq
                                   injection heq with heq2
                                   injection heq2 with heq3
                                   first
                                   | exact absurd heq3.symm hd
                                   | exact absurd heq3 hd)
                                | (rename_i heq hin
                                   injection heq with heq2
                                   injection heq2 with heq3
                                   first
                                   | exact absurd heq3.symm hd
                                   | exact absurd heq3 hd)
                        all_goals
                          split
                          all_goals
                            first
                            | rfl
                            | (rename_i heq
                               cases heq)
                            | (rename_i heq hin
                               cases hin)
                | null => rfl
                | bool b => rfl
                | num n => rfl
                | arr a => rfl
                | obj o => rfl
        | null => rfl
        | bool b => rfl
        | num n => rfl
        | str s => rfl
        | arr a => rfl
  cases post with
  | null => exact absurd rfl h
  | bool b =>
      unfold normalizePost normalizePostSpec
      dsimp only
      rw [hbase, hslug, hcontent]
  | num n =>
      unfold normalizePost normalizePostSpec
      dsimp only
      rw [hbase, hslug, hcontent]
  | str s =>
      unfold normalizePost normalizePostSpec
      dsimp only
      rw [hbase, hslug, hcontent]
  | arr xs =>
      unfold normalizePost normalizePostSpec
      dsimp only
      rw [hbase, hslug, hcontent]
  | obj fs =>
      unfold normalizePost normalizePostSpec
      dsimp only
      rw [hbase, hslug, hcontent]

/-- Witness for C4: a flat (v5-style) post without an `attributes` wrapper,
at a concrete slugify function. -/
theorem C4_normalizePost_spec_witness :
    (Json.obj [("id", Json.num 7), ("title", Json.str "Hi")]) ≠ Json.null ∧
    normalizePost (fun _ => "hi-slug")
        (Json.obj [("id", Json.num 7), ("title", Json.str "Hi")])
      = .ok (normalizePostSpec (fun _ => "hi-slug")
          (Json.obj [("id", Json.num 7), ("title", Json.str "Hi")])) :=
  ⟨fun hh => Json.noConfusion hh,
   C4_normalizePost_spec (fun _ => "hi-slug") _ (fun hh => Json.noConfusion hh)⟩

/-!
Unrecognized-type fallbacks (claim C6).
-/

/-- A `type` property value that matches none of the markdown converter
branch comparisons (a missing or non-string `type` also matches none). -/
def mdUnknownType : Option Json → Bool
  | some (.str t) =>
      match classifyType t with
      | .other => true
      | _ => false
  | _ => true

/-- A `type` property value that matches none of the renderer branch
comparisons. -/
def renderUnknownType : Option Json → Bool
  | some (.str t) =>
      match classifyRender t with
      | .other => true
      | _ => false
  | _ => true

/-- Model of `children.map(BlockComponent)` with exception propagation. -/
def mapRender : List Json → Except Unit (List RNode)
  | [] => .ok []
  | x :: xs =>
      match BlockComponent x with
      | .error e => .error e
      | .ok n =>
          match mapRender xs with
          | .error e => .error e
          | .ok ns => .ok (n :: ns)

theorem mapGo_conv (xs : List Json) :
    mapGo (fun c => some (convertBlockToMarkdown c)) xs = some (mapConv xs) := by
  induction xs with
  | nil => rfl
  | cons x xs ih =>
      unfold mapGo mapConv
      cases convertBlockToMarkdown x with
      | error e => rfl
      | ok r =>
          dsimp only
          rw [ih]
          cases mapConv xs <;> rfl

theorem mapRGo_render (xs : List Json) :
    mapRGo (fun c => some (BlockComponent c)) xs = some (mapRender xs) := by
  induction xs with
  | nil => rfl
  | cons x xs ih =>
      unfold mapRGo mapRender
      cases BlockComponent x with
      | error e => rfl
      | ok n =>
          dsimp only
          rw [ih]
          cases mapRender xs <;> rfl

theorem textFallback_eq (t : Option Json) :
    textFallback t = some (.ok (match t with
      | some v => if v.truthy then v else .str ""
      | none => .str "")) := by
  cases t with
  | none => rfl
  | some v =>
      unfold textFallback
      dsimp only
      by_cases hv : v.truthy = true
      · rw [if_pos hv, if_pos hv]
      · rw [if_neg hv, if_neg hv]

/-- A truthy object block with an unrecognized (or missing, or non-string)
`type` falls through every branch of `convertBlockToMarkdown` to the
default tail. -/
theorem convert_default (block : Json)
    (hg : (block.truthy && block.typeofObject) = true)
    (hunk : mdUnknownType (block.get "type") = true) :
    some (convertBlockToMarkdown block)
      = defaultConv (fun c => some (convertBlockToMarkdown c))
          (block.get "children") (block.get "text") := by
  have h := blockStep_convert block
  unfold blockStep at h
  rw [if_neg (by simp [hg])] at h
  rw [← h]
  cases hty : block.get "type" with
  | none => rfl
  | some tv =>
      cases tv with
      | str t =>
          dsimp only
          have hcl : classifyType t = BlockKind.other := by
            unfold mdUnknownType at hunk
            rw [hty] at hunk
            dsimp only at hunk
            revert hunk
            cases classifyType t <;> simp
          unfold typedStep
          rw [hcl]
      | null => rfl
      | bool b => rfl
      | num n => rfl
      | arr a => rfl
      | obj o => rfl

/-- A truthy object block with an unrecognized (or missing, or non-string)
`type` falls through every branch of `BlockComponent` to the default
children fragment. -/
theorem render_default (block : Json)
    (hg : (block.truthy && block.typeofObject) = true)
    (hunk : renderUnknownType (block.get "type") = true) :
    some (BlockComponent block)
      = rguard (fun c => some (BlockComponent c)) (block.get "children")
          RNode.nothing RNode.frag := by
  have h := renderStep_render block
  unfold renderStep at h
  rw [if_neg (by simp [hg])] at h
  rw [← h]
  cases hty : block.get "type" with
  | none => rfl
  | some tv =>
      cases tv with
      | str t =>
          dsimp only
          have hcl : classifyRender t = RKind.other := by
            unfold renderUnknownType at hunk
            rw [hty] at hunk
            dsimp only at hunk
            revert hunk
            cases classifyRender t <;> simp
          unfold renderTypedStep
          rw [hcl]
      | null => rfl
      | bool b => rfl
      | num n => rfl
      | arr a => rfl
      | obj o => rfl

/-- C6, counterexample: the claim says an unrecognized block without an
array of children yields "the block\x27s text property when present,
otherwise the empty string", but the code tests `if (text)` — truthiness,
not presence.  The block `{type: "custom", text: 0}` has a present `text`
property (`0`), yet `convertBlockToMarkdown` returns the empty string, not
the text property. -/
theorem C6_counterexample :
    (Json.obj [("type", Json.str "custom"), ("text", Json.num 0)]).get "text"
        = some (Json.num 0)
    ∧ classifyType "custom" = BlockKind.other
    ∧ convertBlockToMarkdown
        (Json.obj [("type", Json.str "custom"), ("text", Json.num 0)])
        = .ok (.str "")
    ∧ Json.str "" ≠ Json.num 0 :=
  ⟨rfl, rfl, rfl, fun hh => Json.noConfusion hh⟩

/-- C6 (amended): both tree walks have a total fallback for unrecognized
input.  For every truthy object block whose `type` matches none of the
recognized kinds (including a missing or non-string `type`):
`convertBlockToMarkdown` returns the joined conversions of `children` when
`children` is an array, and otherwise the `text` property when that
property is truthy (not merely present: the code tests `if (text)`), else
the empty string; a falsy or non-object block yields the empty string.
`BlockComponent` renders the fragment of the children of an unknown-type
block when `children` is an array, and otherwise renders nothing; a falsy
or non-object block also renders nothing. -/
theorem C6_amended_fallback :
    (∀ block : Json, ∀ xs : List Json,
        (block.truthy && block.typeofObject) = true →
        mdUnknownType (block.get "type") = true →
        block.get "children" = some (.arr xs) →
        convertBlockToMarkdown block
          = (mapConv xs).map fun rs => Json.str (jsArrJoin "" rs)) ∧
    (∀ block : Json,
        (block.truthy && block.typeofObject) = true →
        mdUnknownType (block.get "type") = true →
        (∀ xs : List Json, block.get "children" ≠ some (.arr xs)) →
        convertBlockToMarkdown block
          = .ok (match block.get "text" with
              | some v => if v.truthy then v else .str ""
              | none => .str "")) ∧
    (∀ block : Json,
        (block.truthy && block.typeofObject) = false →
        convertBlockToMarkdown block = .ok (.str "")) ∧
    (∀ block : Json, ∀ xs : List Json,
        (block.truthy && block.typeofObject) = true →
        renderUnknownType (block.get "type") = true →
        block.get "children" = some (.arr xs) →
        BlockComponent block = (mapRender xs).map RNode.frag) ∧
    (∀ block : Json,
        (block.truthy && block.typeofObject) = true →
        renderUnknownType (block.get "type") = true →
        (∀ xs : List Json, block.get "children" ≠ some (.arr xs)) →
        BlockComponent block = .ok RNode.nothing) ∧
    (∀ block : Json,
        (block.truthy && block.typeofObject) = false →
        BlockComponent block = .ok RNode.nothing) := by
  refine ⟨?_, ?_, ?_, ?_, ?_, ?_⟩
  · intro block xs hg hunk hch
    have h := convert_default block hg hunk
    rw [hch] at h
    simp only [defaultConv] at h
    rw [mapGo_conv] at h
    cases hmc : mapConv xs with
    | error e =>
        rw [hmc] at h
        exact Option.some.inj h
    | ok rs =>
        rw [hmc] at h
        exact Option.some.inj h
  · intro block hg hunk hch
    have h := convert_default block hg hunk
    have hd : defaultConv (fun c => some (convertBlockToMarkdown c))
        (block.get "children") (block.get "text")
        = textFallback (block.get "text") := by
      unfold defaultConv
      cases hc : block.get "children" with
      | none => rfl
      | some v =>
          cases v with
          | arr a => exact absurd hc (hch a)
          | null => rfl
          | bool b => rfl
          | num n => rfl
          | str s => rfl
          | obj o => rfl
    rw [hd, textFallback_eq] at h
    exact Option.some.inj h
  · intro block hg
    have h := blockStep_convert block
    unfold blockStep at h
    rw [if_pos (by simp [hg])] at h
    exact (Option.some.inj h).symm
  · intro block xs hg hunk hch
    have h := render_default block hg hunk
    rw [hch] at h
    simp only [rguard] at h
    rw [mapRGo_render] at h
    cases hmr : mapRender xs with
    | error e =>
        rw [hmr] at h
        exact Option.some.inj h
    | ok ns =>
        rw [hmr] at h
        exact Option.some.inj h
  · intro block hg hunk hch
    have h := render_default block hg hunk
    have hd : rguard (fun c => some (BlockComponent c)) (block.get "children")
        RNode.nothing RNode.frag = some (.ok RNode.nothing) := by
      unfold rguard
      cases hc : block.get "children" with
      | none => rfl
      | some v =>
          cases v with
          | arr a => exact absurd hc (hch a)
          | null => rfl
          | bool b => rfl
          | num n => rfl
          | str s => rfl
          | obj o => rfl
    rw [hd] at h
    exact Option.some.inj h
  · intro block hg
    have h := renderStep_render block
    unfold renderStep at h
    rw [if_pos (by simp [hg])] at h
    exact (Option.some.inj h).symm

/-- Witness for C6 (amended) at concrete blocks: an unknown `callout` block
with a text child converts to that child text and an unknown block without
children converts to the empty string and renders nothing; the falsy block
`0` converts to the empty string and renders nothing. -/
theorem C6_amended_fallback_witness :
    convertBlockToMarkdown (Json.obj [("type", Json.str "callout"),
        ("children", Json.arr [Json.obj [("type", Json.str "text"),
          ("text", Json.str "hi")]])])
      = .ok (.str "hi") ∧
    convertBlockToMarkdown (Json.obj [("type", Json.str "callout")])
      = .ok (.str "") ∧
    convertBlockToMarkdown (Json.num 0) = .ok (.str "") ∧
    BlockComponent (Json.obj [("type", Json.str "callout")])
      = .ok RNode.nothing ∧
    BlockComponent (Json.num 0) = .ok RNode.nothing := by
  refine ⟨?_, ?_, ?_, ?_, ?_⟩
  · exact (C6_amended_fallback.1 (Json.obj [("type", Json.str "callout"),
      ("children", Json.arr [Json.obj [("type", Json.str "text"),
        ("text", Json.str "hi")]])])
      [Json.obj [("type", Json.str "text"), ("text", Json.str "hi")]]
      (by rfl) (by rfl) rfl).trans (by rfl)
  · exact (C6_amended_fallback.2.1 (Json.obj [("type", Json.str "callout")])
      (by rfl) (by rfl) (fun xs hxs => Option.noConfusion hxs)).trans (by rfl)
  · exact C6_amended_fallback.2.2.1 (Json.num 0) (by rfl)
  · exact C6_amended_fallback.2.2.2.2.1 (Json.obj [("type", Json.str "callout")])
      (by rfl) (by rfl) (fun xs hxs => Option.noConfusion hxs)
  · exact C6_amended_fallback.2.2.2.2.2 (Json.num 0) (by rfl)

/-!
Totality of the top-level converter (claim C1).
-/

theorem mapConv_wf {xs : List Json} (h : ∀ x ∈ xs, jsonWF x = true) :
    ∃ rs, mapConv xs = .ok rs := by
  induction xs with
  | nil => exact ⟨[], rfl⟩
  | cons x rest ih =>
      rcases convertBlock_wf x (h x (List.mem_cons_self x rest)) with ⟨s, hs⟩
      rcases ih (fun y hy => h y (List.mem_cons_of_mem x hy)) with ⟨rs, hrs⟩
      exact ⟨.str s :: rs, by simp [mapConv, hs, hrs]⟩

/-- C1, counterexample: `convertStrapiContentToMarkdown` does not return a
string for every input.  The array input
`[{type: "bold", children: 5}]` reaches the bold branch, whose unguarded
`children.map` is called on the truthy non-array `5` and throws a
`TypeError` (modelled as `.error ()`), so the function throws instead of
returning a string. -/
theorem C1_counterexample :
    convertStrapiContentToMarkdown
        (Json.arr [Json.obj [("type", Json.str "bold"), ("children", Json.num 5)]])
      = .error () :=
  rfl

/-- C1 (amended): `convertStrapiContentToMarkdown` behaves as described on
every input whose conversion does not throw — a string is returned
unchanged, an array is converted block-by-block with non-string and
blank results dropped and the rest joined by blank lines, and any other
value is returned as its `JSON.stringify` text — and on every
hereditarily well-formed array (children arrays of non-null blocks,
string `text` fields, nonnegative numeric `level` fields) the result is
indeed a string; but a malformed block (for example `children: 5` in a
bold block) makes the conversion throw a `TypeError` instead. -/
theorem C1_amended_total_conversion :
    (∀ s : String, convertStrapiContentToMarkdown (.str s) = .ok (.str s)) ∧
    (∀ xs : List Json, convertStrapiContentToMarkdown (.arr xs)
        = (mapConv xs).map fun rs => Json.str (joinSep "\n\n" (keepGood rs))) ∧
    (convertStrapiContentToMarkdown .null = .ok (.str (jsonStringify .null))) ∧
    (∀ b : Bool, convertStrapiContentToMarkdown (.bool b)
        = .ok (.str (jsonStringify (.bool b)))) ∧
    (∀ n : Int, convertStrapiContentToMarkdown (.num n)
        = .ok (.str (jsonStringify (.num n)))) ∧
    (∀ fs : List (String × Json), convertStrapiContentToMarkdown (.obj fs)
        = .ok (.str (jsonStringify (.obj fs)))) ∧
    (∀ xs : List Json, (∀ x ∈ xs, jsonWF x = true) →
        ∃ s : String, convertStrapiContentToMarkdown (.arr xs) = .ok (.str s)) := by
  refine ⟨fun s => rfl, ?_, rfl, fun b => rfl, fun n => rfl, fun fs => rfl, ?_⟩
  · intro xs
    unfold convertStrapiContentToMarkdown
    dsimp only
    cases mapConv xs <;> rfl
  · intro xs hwf
    rcases mapConv_wf hwf with ⟨rs, hrs⟩
    refine ⟨joinSep "\n\n" (keepGood rs), ?_⟩
    unfold convertStrapiContentToMarkdown
    dsimp only
    rw [hrs]

/-- Witness for C1 (amended) at concrete inputs: a string passes through,
a number is stringified, and a well-formed one-block array converts to a
string. -/
theorem C1_amended_total_conversion_witness :
    convertStrapiContentToMarkdown (.str "hello") = .ok (.str "hello") ∧
    convertStrapiContentToMarkdown (.num 3)
      = .ok (.str (jsonStringify (.num 3))) ∧
    (∀ x ∈ [Json.obj [("type", Json.str "hr")]], jsonWF x = true) ∧
    (∃ s : String, convertStrapiContentToMarkdown
        (.arr [Json.obj [("type", Json.str "hr")]]) = .ok (.str s)) :=
  ⟨C1_amended_total_conversion.1 "hello",
   C1_amended_total_conversion.2.2.2.2.1 3,
   by decide,
   C1_amended_total_conversion.2.2.2.2.2.2 [Json.obj [("type", Json.str "hr")]]
     (by decide)⟩

/-!
Round trip of plain text through the blocks encoding (claim C9).
-/

/-- The paragraph block that `stringToStrapiBlocks` builds for one part. -/
def paraBlock (p : String) : Json :=
  .obj [("type", .str "paragraph"),
        ("children", .arr [.obj [("type", .str "text"),
                                 ("text", .str (replaceNl p))]])]

theorem dropWhile_eq_cons_not {w : Char → Bool} :
    ∀ {L : List Char} {c : Char} {cs : List Char},
      L.dropWhile w = c :: cs → w c = false := by
  intro L
  induction L with
  | nil => intro c cs h; cases h
  | cons a as ih =>
      intro c cs h
      by_cases hw : w a = true
      · rw [List.dropWhile_cons_of_pos hw] at h
        exact ih h
      · rw [List.dropWhile_cons_of_neg hw] at h
        injection h with h1 h2
        subst h1
        simpa using hw

theorem trimChars_eq_nil_iff {l : List Char} :
    trimChars l = [] ↔ ∀ c ∈ l, isJsWS c = true := by
  unfold trimChars
  constructor
  · intro h c hc
    have h1 : (l.dropWhile isJsWS).reverse.dropWhile isJsWS = [] := by
      have h0 := congrArg List.reverse h
      simpa using h0
    have h3 : ∀ x ∈ l.dropWhile isJsWS, isJsWS x = true := by
      intro x hx
      exact List.dropWhile_eq_nil_iff.mp h1 x (List.mem_reverse.mpr hx)
    have hl : c ∈ l.takeWhile isJsWS ++ l.dropWhile isJsWS := by
      rw [List.takeWhile_append_dropWhile]
      exact hc
    rcases List.mem_append.mp hl with hc1 | hc2
    · exact List.mem_takeWhile_imp hc1
    · exact h3 c hc2
  · intro h
    rw [List.dropWhile_eq_nil_iff.mpr h]
    rfl

theorem trim_has_nonws {l : List Char} (h : trimChars l ≠ []) :
    ∃ c ∈ trimChars l, isJsWS c = false := by
  unfold trimChars at h ⊢
  cases hr : (l.dropWhile isJsWS).reverse.dropWhile isJsWS with
  | nil => exact absurd (by rw [hr]; rfl) h
  | cons c cs =>
      refine ⟨c, ?_, dropWhile_eq_cons_not hr⟩
      exact List.mem_reverse.mpr (List.mem_cons_self c cs)

theorem data_ne_nil {s : String} (h : s ≠ "") : s.data ≠ [] := by
  intro hd
  apply h
  cases s with
  | mk l =>
      simp only at hd
      rw [hd]

theorem replaceNl_ne {p : String} (h : p ≠ "") : (replaceNl p != "") = true := by
  rw [bne_iff_ne]
  intro hh
  have h2 := congrArg String.data hh
  simp only [replaceNl, replaceNlChars] at h2
  exact data_ne_nil h (List.map_eq_nil_iff.mp h2)

theorem trim_pos_of_nonws {s : String}
    (h : ∃ c ∈ s.data, isJsWS c = false) : 0 < (jsTrim s).length := by
  rcases h with ⟨c, hc, hw⟩
  have hne : trimChars s.data ≠ [] := by
    intro hnil
    rw [trimChars_eq_nil_iff.mp hnil c hc] at hw
    cases hw
  show 0 < (jsTrim s).data.length
  exact List.length_pos.mpr hne

/-- A non-empty trimmed string keeps a non-whitespace character after its
inner newlines are replaced by spaces, so the paragraph filters keep it. -/
theorem part_keeps {q : String} (hq : jsTrim q ≠ "") :
    (replaceNl (jsTrim q) != "") = true
      ∧ 0 < (jsTrim (replaceNl (jsTrim q))).length := by
  refine ⟨replaceNl_ne hq, ?_⟩
  apply trim_pos_of_nonws
  have hd : (jsTrim q).data = trimChars q.data := rfl
  rcases trim_has_nonws (by rw [← hd]; exact data_ne_nil hq) with ⟨c, hc, hw⟩
  refine ⟨(if c = '\n' then ' ' else c), ?_, ?_⟩
  · exact List.mem_map_of_mem _ (by rw [hd]; exact hc)
  · rw [if_neg (fun hh => by subst hh; simp [isJsWS] at hw)]
    exact hw

theorem convert_textBlock {t : String} (ht : (t != "") = true) :
    convertBlockToMarkdown (Json.obj [("type", Json.str "text"), ("text", Json.str t)])
      = .ok (.str t) := by
  show Except.ok (jsOr (some (.str t)) (.str "")) = .ok (.str t)
  unfold jsOr
  dsimp only
  rw [if_pos (by simpa [Json.truthy] using ht)]

theorem convert_paraBlock {p : String} (hne : (replaceNl p != "") = true)
    (hkeep : 0 < (jsTrim (replaceNl p)).length) :
    convertBlockToMarkdown (paraBlock p) = .ok (.str (replaceNl p)) := by
  have h := (blockStep_convert (paraBlock p)).symm
  have h2 : blockStep (fun c => some (convertBlockToMarkdown c)) (paraBlock p)
      = strRes (paraConv (fun c => some (convertBlockToMarkdown c))
          (some (.arr [Json.obj [("type", Json.str "text"),
            ("text", Json.str (replaceNl p))]]))) := rfl
  rw [h2] at h
  have h3 : mapGo (fun c => some (convertBlockToMarkdown c))
      [Json.obj [("type", Json.str "text"), ("text", Json.str (replaceNl p))]]
      = some (.ok [Json.str (replaceNl p)]) := by
    simp only [mapGo]
    rw [convert_textBlock hne]
  simp only [paraConv] at h
  rw [h3] at h
  dsimp only at h
  have h4 : filterTrimNonempty [Json.str (replaceNl p)]
      = .ok [Json.str (replaceNl p)] := by
    simp only [filterTrimNonempty]
    rw [if_pos hkeep]
  rw [h4] at h
  dsimp only [strRes, jsArrJoin, joinSep, joinElem] at h
  exact Option.some.inj h

theorem mapConv_paras {ps : List String}
    (h : ∀ p ∈ ps, (replaceNl p != "") = true
      ∧ 0 < (jsTrim (replaceNl p)).length) :
    mapConv (ps.map paraBlock) = .ok (ps.map fun p => Json.str (replaceNl p)) := by
  induction ps with
  | nil => rfl
  | cons p rest ih =>
      have hp := h p (List.mem_cons_self p rest)
      have hrest := ih fun q hq => h q (List.mem_cons_of_mem p hq)
      simp only [List.map_cons, mapConv]
      rw [convert_paraBlock hp.1 hp.2, hrest]

theorem keepGood_paras {ps : List String}
    (h : ∀ p ∈ ps, (replaceNl p != "") = true
      ∧ 0 < (jsTrim (replaceNl p)).length) :
    keepGood (ps.map fun p => Json.str (replaceNl p)) = ps.map replaceNl := by
  induction ps with
  | nil => rfl
  | cons p rest ih =>
      have hp := h p (List.mem_cons_self p rest)
      have hrest := ih fun q hq => h q (List.mem_cons_of_mem p hq)
      simp only [List.map_cons, keepGood]
      rw [if_pos ⟨by simpa [bne_iff_ne] using hp.1, hp.2⟩, hrest]

/-- The converted form of `stringToStrapiBlocks s`, for every string `s`:
split on blank-line runs, trim, drop empties, replace inner newlines by
spaces, and join by one blank line. -/
theorem roundTrip_eq (s : String) :
    convertStrapiContentToMarkdown (stringToStrapiBlocks s)
      = .ok (.str (joinSep "\n\n"
          ((((splitBlanks s).map jsTrim).filter fun p => p != "").map replaceNl))) := by
  have hparts : ∀ p ∈ ((splitBlanks s).map jsTrim).filter fun p => p != "",
      (replaceNl p != "") = true ∧ 0 < (jsTrim (replaceNl p)).length := by
    intro p hp
    have hne : (p != "") = true := (List.mem_filter.mp hp).2
    have hmem := (List.mem_filter.mp hp).1
    rcases List.mem_map.mp hmem with ⟨q, _, hq⟩
    subst hq
    exact part_keeps (by simpa [bne_iff_ne] using hne)
  have hblocks : stringToStrapiBlocks s
      = .arr ((((splitBlanks s).map jsTrim).filter fun p => p != "").map paraBlock) :=
    rfl
  rw [hblocks]
  unfold convertStrapiContentToMarkdown
  dsimp only
  rw [mapConv_paras hparts]
  dsimp only
  rw [keepGood_paras hparts]

theorem strDataAppend (a b : String) : (a ++ b).data = a.data ++ b.data := rfl


theorem sbAux_step {c : Char} (hc : c ≠ '\n') (cur l : List Char) :
    sbAux cur 0 (c :: l) = sbAux (c :: cur) 0 l := by
  show (if c = '\n' then sbAux cur (0 + 1) l
    else if (2 : Nat) ≤ 0 then cur.reverse :: sbAux [c] 0 l
    else sbAux (c :: List.replicate 0 '\n' ++ cur) 0 l)
    = sbAux (c :: cur) 0 l
  rw [if_neg hc, if_neg (by omega : ¬ (2 : Nat) ≤ 0)]
  rfl

theorem sbAux_skip {w : List Char} (hw : ∀ c ∈ w, c ≠ '\n') :
    ∀ (cur l : List Char),
      sbAux cur 0 (w ++ l) = sbAux (w.reverse ++ cur) 0 l := by
  induction w with
  | nil => intro cur l; rfl
  | cons c w2 ih =>
      intro cur l
      show sbAux cur 0 (c :: (w2 ++ l)) = sbAux ((c :: w2).reverse ++ cur) 0 l
      rw [sbAux_step (hw c (List.mem_cons_self c w2)),
        ih (fun d hd => hw d (List.mem_cons_of_mem c hd)) (c :: cur) l]
      simp

theorem splitBlanks_joinSep {ps : List String}
    (h : ∀ q ∈ ps, q ≠ "" ∧ ∀ c ∈ q.data, c ≠ '\n') :
    ∀ cur : List Char,
      sbAux cur 0 (joinSep "\n\n" ps).data
        = (cur.reverse ++ (ps.headD "").data) :: ps.tail.map String.data := by
  induction ps with
  | nil =>
      intro cur
      show [cur.reverse] = (cur.reverse ++ ("" : String).data) :: []
      simp
  | cons p rest ih =>
      intro cur
      have hp := h p (List.mem_cons_self p rest)
      cases rest with
      | nil =>
          have h1 : (joinSep "\n\n" [p]).data = p.data ++ [] := by
            show p.data = p.data ++ []
            simp
          rw [h1, sbAux_skip hp.2]
          show [(p.data.reverse ++ cur).reverse]
            = (cur.reverse ++ p.data) :: []
          simp
      | cons q rest2 =>
          have hq := h q (List.mem_cons_of_mem p (List.mem_cons_self q rest2))
          have h1 : (joinSep "\n\n" (p :: q :: rest2)).data
              = p.data ++ ('\n' :: '\n' :: (joinSep "\n\n" (q :: rest2)).data) := by
            show (p ++ "\n\n" ++ joinSep "\n\n" (q :: rest2)).data = _
            rw [strDataAppend, strDataAppend,
              (rfl : "\n\n".data = ['\n', '\n'])]
            simp
          rw [h1, sbAux_skip hp.2]
          have h2 : sbAux (p.data.reverse ++ cur) 0
              ('\n' :: '\n' :: (joinSep "\n\n" (q :: rest2)).data)
              = sbAux (p.data.reverse ++ cur) 2
                  (joinSep "\n\n" (q :: rest2)).data := rfl
          rw [h2]
          have h4 : ∃ c q2, (joinSep "\n\n" (q :: rest2)).data = c :: q2
              ∧ c ≠ '\n' := by
            cases hqd : q.data with
            | nil => exact absurd (String.ext (by rw [hqd])) hq.1
            | cons c q2 =>
                have hc : c ≠ '\n' :=
                  hq.2 c (by rw [hqd]; exact List.mem_cons_self c q2)
                cases rest2 with
                | nil => exact ⟨c, q2, by simpa [joinSep] using hqd, hc⟩
                | cons r rest3 =>
                    refine ⟨c, q2 ++ ('\n' :: '\n'
                      :: (joinSep "\n\n" (r :: rest3)).data), ?_, hc⟩
                    show (q ++ "\n\n" ++ joinSep "\n\n" (r :: rest3)).data = _
                    rw [strDataAppend, strDataAppend,
                      (rfl : "\n\n".data = ['\n', '\n']), hqd]
                    simp
          rcases h4 with ⟨c, q2, hcq, hc⟩
          rw [hcq]
          have h5 : sbAux (p.data.reverse ++ cur) 2 (c :: q2)
              = (p.data.reverse ++ cur).reverse :: sbAux [c] 0 q2 := by
            show (if c = '\n' then sbAux (p.data.reverse ++ cur) (2 + 1) q2
              else if (2 : Nat) ≤ 2 then
                (p.data.reverse ++ cur).reverse :: sbAux [c] 0 q2
              else sbAux (c :: List.replicate 2 '\n' ++ (p.data.reverse ++ cur)) 0 q2)
              = (p.data.reverse ++ cur).reverse :: sbAux [c] 0 q2
            rw [if_neg hc, if_pos (by omega : (2 : Nat) ≤ 2)]
          rw [h5]
          have h6 : sbAux [c] 0 q2 = sbAux [] 0 (c :: q2) :=
            (sbAux_step hc [] q2).symm
          rw [h6, ← hcq, ih (fun r hr => h r (List.mem_cons_of_mem p hr)) []]
          simp

theorem map_mk_data (L : List String) :
    (L.map String.data).map (fun l => (⟨l⟩ : String)) = L := by
  induction L with
  | nil => rfl
  | cons a as ihL =>
      show (⟨a.data⟩ : String)
          :: (as.map String.data).map (fun l => (⟨l⟩ : String)) = a :: as
      rw [ihL]

theorem splitBlanks_joinSep_eq {ps : List String} (hne : ps ≠ [])
    (h : ∀ q ∈ ps, q ≠ "" ∧ ∀ c ∈ q.data, c ≠ '\n') :
    splitBlanks (joinSep "\n\n" ps) = ps := by
  unfold splitBlanks splitBlanksL
  rw [splitBlanks_joinSep h []]
  cases ps with
  | nil => exact absurd rfl hne
  | cons p rest =>
      show ((List.reverse [] ++ p.data) :: rest.map String.data).map
          (fun l => (⟨l⟩ : String)) = p :: rest
      rw [List.map_cons, map_mk_data]
      show (⟨List.reverse [] ++ p.data⟩ : String) :: rest = p :: rest
      rfl

theorem map_jsTrim_id {ps : List String} (h : ∀ p ∈ ps, jsTrim p = p) :
    ps.map jsTrim = ps := by
  induction ps with
  | nil => rfl
  | cons a as ih =>
      simp only [List.map_cons, h a (List.mem_cons_self a as),
        ih fun q hq => h q (List.mem_cons_of_mem a hq)]

theorem filter_ne_empty_id {ps : List String} (h : ∀ p ∈ ps, p ≠ "") :
    (ps.filter fun p => p != "") = ps :=
  List.filter_eq_self.mpr fun a ha => by simpa [bne_iff_ne] using h a ha

theorem mapNoNl {l : List Char} (h : ∀ c ∈ l, c ≠ '\n') :
    (l.map fun c => if c = '\n' then ' ' else c) = l := by
  induction l with
  | nil => rfl
  | cons a as ih =>
      simp only [List.map_cons, if_neg (h a (List.mem_cons_self a as)),
        ih fun c hc => h c (List.mem_cons_of_mem a hc)]

theorem replaceNl_id {p : String} (h : ∀ c ∈ p.data, c ≠ '\n') :
    replaceNl p = p := by
  cases p with
  | mk l =>
      show (⟨replaceNlChars l⟩ : String) = ⟨l⟩
      rw [show replaceNlChars l = l from mapNoNl h]

theorem map_replaceNl_id {ps : List String}
    (h : ∀ p ∈ ps, ∀ c ∈ p.data, c ≠ '\n') :
    ps.map replaceNl = ps := by
  induction ps with
  | nil => rfl
  | cons a as ih =>
      simp only [List.map_cons, replaceNl_id (h a (List.mem_cons_self a as)),
        ih fun q hq => h q (List.mem_cons_of_mem a hq)]

/-- C9: round trip of plain text through the blocks encoding.  For every
paragraph list in normal form (non-empty, trimmed, no inner newlines),
converting `stringToStrapiBlocks` of their blank-line-joined text gives
that text back unchanged; and for an arbitrary string the round trip
yields its normal form: paragraphs split on blank-line runs, trimmed,
empty parts dropped, inner newlines replaced by spaces, joined by one
blank line. -/
theorem C9_roundTrip :
    (∀ ps : List String, ps ≠ [] →
      (∀ p ∈ ps, p ≠ "" ∧ jsTrim p = p ∧ ∀ c ∈ p.data, c ≠ '\n') →
      convertStrapiContentToMarkdown
          (stringToStrapiBlocks (joinSep "\n\n" ps))
        = .ok (.str (joinSep "\n\n" ps))) ∧
    (∀ s : String, convertStrapiContentToMarkdown (stringToStrapiBlocks s)
      = .ok (.str (joinSep "\n\n"
          ((((splitBlanks s).map jsTrim).filter fun p => p != "").map
            replaceNl)))) := by
  refine ⟨?_, roundTrip_eq⟩
  intro ps hne h
  rw [roundTrip_eq]
  rw [splitBlanks_joinSep_eq hne (fun q hq => ⟨(h q hq).1, (h q hq).2.2⟩),
    map_jsTrim_id (fun q hq => (h q hq).2.1),
    filter_ne_empty_id (fun q hq => (h q hq).1),
    map_replaceNl_id (fun q hq => (h q hq).2.2)]

/-- Witness for C9 at the concrete normal-form text `"ab\n\ncd"`. -/
theorem C9_roundTrip_witness :
    (["ab", "cd"] : List String) ≠ [] ∧
    (∀ p ∈ (["ab", "cd"] : List String),
      p ≠ "" ∧ jsTrim p = p ∧ ∀ c ∈ p.data, c ≠ '\n') ∧
    convertStrapiContentToMarkdown
        (stringToStrapiBlocks (joinSep "\n\n" ["ab", "cd"]))
      = .ok (.str (joinSep "\n\n" ["ab", "cd"])) :=
  ⟨by decide, by decide,
   C9_roundTrip.1 ["ab", "cd"] (by decide) (by decide)⟩
